import Mathlib

/-!
Verification development for the LLM-friendly repository compressor
(`llm_compressor.py` of muddylemon/RepoToTxt).

The Python source is shallowly embedded: each method of
`LLMFriendlyCompressor` that the claims touch becomes an executable Lean
function over `String` and `List`.  Conventions used throughout:

* Python strings are Lean `String`s; all inputs use `\n` line endings, so
  `pySplitlines` models `str.splitlines` for `\n`-terminated text (the
  exotic unicode line boundaries Python also splits on never occur here).
* Regular-expression passes are implemented as explicit scanners with the
  exact leftmost / greedy / non-overlapping semantics of `re.sub` for the
  concrete patterns of the source; scanners that skip a variable number of
  characters take a fuel argument (always called with enough fuel) so that
  every definition is structurally recursive and kernel-computable.
* The md5 chunk hash of `find_duplicate_code` is modelled by the chunk
  text itself (md5 is treated as injective; collisions are out of scope).
* Mutation of Python dicts is modelled by explicit state passing:
  `compressRepository` returns both the final state of its input map and
  the compressed map, so that claims about in-place mutation are statable.
* Parts of the source outside every claim (the natural-language repository
  summary, the javascript/html/css/markdown handlers, `json.loads`, and
  the full Python AST) are not modelled; where a modelled function would
  reach them it returns `none`, making the embedding honestly partial
  instead of stubbing behaviour.  No theorem below depends on an
  unmodelled branch.
-/

namespace RepoCompress

/-- Single quote character, built numerically to keep source text plain. -/
def sq : Char := Char.ofNat 39

/-- Double quote character, built numerically to keep source text plain. -/
def dq : Char := Char.ofNat 34

/-- Python `\s` for the character set actually reachable in this code
(space, tab, newline, carriage return, vertical tab, form feed). -/
def pyWs (c : Char) : Bool :=
  c == ' ' || c == '\t' || c == '\n' || c == '\r' || c == '\x0b' || c == '\x0c'

/-- Space or tab, the regex class `[ \t]`. -/
def spaceTab (c : Char) : Bool := c == ' ' || c == '\t'

/-- Split a character list at every newline; never returns `[]`. -/
def linesOf : List Char → List (List Char)
  | [] => [[]]
  | c :: rest =>
    if c = '\n' then [] :: linesOf rest
    else
      match linesOf rest with
      | l :: ls => (c :: l) :: ls
      | [] => [[c]]

/-- Python `str.splitlines` for `\n`-separated text: `""` gives `[]`, a
trailing newline does not produce a trailing empty line. -/
def pySplitlines (s : String) : List String :=
  if s.data.isEmpty then []
  else
    let ls := linesOf s.data
    let ls := if s.data.getLast? = some '\n' then ls.dropLast else ls
    ls.map String.mk

/-- Python `"\n".join(lines)`. -/
def joinLines : List String → String
  | [] => ""
  | [l] => l
  | l :: ls => l ++ "\n" ++ joinLines ls

/-- Does the list start with the given pattern (`str.startswith` on chars)? -/
def listStarts (pat : List Char) : List Char → Bool
  | l =>
    match pat, l with
    | [], _ => true
    | _ :: _, [] => false
    | p :: ps, c :: cs => p == c && listStarts ps cs

/-- `str.startswith` on strings. -/
def strStarts (pat s : String) : Bool := listStarts pat.data s.data

/-- `str.endswith` on strings. -/
def strEnds (pat s : String) : Bool := listStarts pat.data.reverse s.data.reverse

/-- Python `needle in hay` substring test. -/
def containsSubList (n : List Char) : List Char → Bool
  | [] => n.isEmpty
  | c :: cs => listStarts n (c :: cs) || containsSubList n cs

/-- Python `needle in hay` on strings. -/
def containsSub (needle hay : String) : Bool := containsSubList needle.data hay.data

/-- Python `str.lower` (ASCII, which is all the source compares). -/
def pyLower (s : String) : String := String.mk (s.data.map Char.toLower)

/-- Python `str.lstrip()`. -/
def pyLstrip (s : String) : String := String.mk (s.data.dropWhile (pyWs ·))

/-- Python `str.strip()`. -/
def pyStrip (s : String) : String :=
  String.mk (((s.data.dropWhile (pyWs ·)).reverse.dropWhile (pyWs ·)).reverse)

/-- Python `str.replace(pat, rep)`: every non-overlapping occurrence,
scanning left to right.  `pat` is assumed non-empty (always true below). -/
def replaceAux (pat rep : List Char) : Nat → List Char → List Char
  | 0, cs => cs
  | _ + 1, [] => []
  | fuel + 1, c :: cs =>
    if pat ≠ [] && listStarts pat (c :: cs) then
      rep ++ replaceAux pat rep fuel ((c :: cs).drop pat.length)
    else
      c :: replaceAux pat rep fuel cs

/-- Python `str.replace` on strings. -/
def pyReplace (s pat rep : String) : String :=
  String.mk (replaceAux pat.data rep.data s.data.length s.data)

/-- Last `k` elements of a list, Python `l[-k:]` for `1 ≤ k`. -/
def takeLast (k : Nat) (l : List α) : List α := l.drop (l.length - k)

/-- Lexicographic code-point comparison, Python `<` on strings. -/
def strLtChars : List Char → List Char → Bool
  | [], [] => false
  | [], _ :: _ => true
  | _ :: _, [] => false
  | a :: as, b :: bs =>
    if a.val < b.val then true else if b.val < a.val then false else strLtChars as bs

/-- Insert into an ascending list (stable, used to model Python `sorted`). -/
def insertAsc (x : String) : List String → List String
  | [] => [x]
  | y :: ys => if strLtChars x.data y.data then x :: y :: ys else y :: insertAsc x ys

/-- Python `sorted` on a list of strings. -/
def sortStrings (l : List String) : List String := l.foldl (fun acc x => insertAsc x acc) []

/-- Keep the first occurrence of each element (models building `set(...)`
before sorting — only the set of elements matters, order is re-sorted). -/
def dedupKeep : List String → List String
  | [] => []
  | x :: xs => x :: (dedupKeep xs).filter (fun y => ¬ (y == x))

/-- Python `sorted(set(l))`. -/
def sortedSet (l : List String) : List String := sortStrings (dedupKeep l)

/-- Stable descending insertion by score: models
`sorted(pairs, key=lambda x: x[1], reverse=True)` (Python sort is stable). -/
def insertScoreDesc (x : String × Nat) : List (String × Nat) → List (String × Nat)
  | [] => [x]
  | y :: ys => if x.2 ≤ y.2 then y :: insertScoreDesc x ys else x :: y :: ys

/-- Python `sorted(pairs, key=lambda p: p[1], reverse=True)`. -/
def sortScoreDesc (l : List (String × Nat)) : List (String × Nat) :=
  l.foldl (fun acc x => insertScoreDesc x acc) []

/-- First-match association lookup, modelling Python dict access (keys are
unique in every map built below). -/
def alookup (k : String) : List (String × α) → Option α
  | [] => none
  | (k2, v) :: rest => if k == k2 then some v else alookup k rest

/-- Replace the value at an existing key, preserving position — Python dict
item assignment for a present key. -/
def aupdate (k : String) (v : α) : List (String × α) → List (String × α)
  | [] => []
  | (k2, v2) :: rest => if k == k2 then (k2, v) :: rest else (k2, v2) :: aupdate k v rest

/-- Key membership in an association list. -/
def amem (k : String) (l : List (String × α)) : Bool := (alookup k l).isSome

/-! ## Configuration

`CompressionConfig`: the mutable fields of `LLMFriendlyCompressor.__init__`
that the modelled code reads (`comment_compression_ratio` is written by the
source but never read anywhere, so it is omitted). -/

structure Config where
  minLinesForCompression : Nat
  importSummaryThreshold : Nat
  duplicateThreshold : Nat
  maxLinesToKeep : Nat
  maxClassMethodsToShow : Nat
  extremelyAggressive : Bool
deriving DecidableEq, Repr

/-- Constructor defaults of `LLMFriendlyCompressor.__init__`. -/
def initConfig : Config :=
  { minLinesForCompression := 15
    importSummaryThreshold := 5
    duplicateThreshold := 3
    maxLinesToKeep := 500
    maxClassMethodsToShow := 3
    extremelyAggressive := false }

/-- `set_compression_level`: updates the thresholds for a named level and
leaves the configuration unchanged for any other string. -/
def setCompressionLevel (level : String) (c : Config) : Config :=
  if level == "light" then
    { minLinesForCompression := 40, importSummaryThreshold := 10, duplicateThreshold := 8
      maxLinesToKeep := 1000, maxClassMethodsToShow := 8, extremelyAggressive := false }
  else if level == "medium" then
    { minLinesForCompression := 25, importSummaryThreshold := 8, duplicateThreshold := 5
      maxLinesToKeep := 750, maxClassMethodsToShow := 5, extremelyAggressive := false }
  else if level == "heavy" then
    { minLinesForCompression := 5, importSummaryThreshold := 3, duplicateThreshold := 2
      maxLinesToKeep := 300, maxClassMethodsToShow := 2, extremelyAggressive := true }
  else c

def lightConfig : Config := setCompressionLevel "light" initConfig
def mediumConfig : Config := setCompressionLevel "medium" initConfig
def heavyConfig : Config := setCompressionLevel "heavy" initConfig

/-! ## Multiline comment / docstring compaction

`compress_multiline_comments` substitutes the regex
`(['"])\1\1[\s\S]*?\1{3}|"""[\s\S]*?"""|'''[\s\S]*?'''` — i.e. a
triple-quoted block up to the nearest closing triple of the same quote —
with `replace_docstring`. -/

/-- Count the non-overlapping matches of an alternation of literal strings,
scanning left to right and trying the alternatives in order — exactly
`len(re.findall(alt1|alt2|..., s))` for literal alternatives. -/
def countOccAux (alts : List (List Char)) : Nat → List Char → Nat
  | 0, _ => 0
  | _ + 1, [] => 0
  | fuel + 1, c :: cs =>
    match alts.find? (fun a => listStarts a (c :: cs)) with
    | some a => 1 + countOccAux alts fuel ((c :: cs).drop a.length)
    | none => countOccAux alts fuel cs

def countOcc (alts : List String) (s : String) : Nat :=
  countOccAux (alts.map String.data) s.data.length s.data

/-- `replace_docstring`: keep blocks of at most three lines, otherwise keep
the first and last line around a one-line summary. -/
def replaceDocstring (aggressive : Bool) (doc : String) : String :=
  let lines := pySplitlines doc
  if lines.length ≤ 3 then doc
  else
    let first := lines.headD ""
    let last := lines.getLastD ""
    let params := countOcc ["@param", "@arg", ":param", ":arg", "Parameters:"] doc
    let returns := countOcc ["@return", ":return", "Returns:"] doc
    let examples := countOcc ["@example", "Example:", "Examples:"] doc
    if aggressive then
      first ++ "\n# Compressed " ++ toString lines.length ++ " line docstring\n" ++ last
    else
      let summary : List String :=
        (if params > 0 then [toString params ++ " params"] else []) ++
        (if returns > 0 then ["return info"] else []) ++
        (if examples > 0 then ["examples"] else [])
      if summary ≠ [] then
        first ++ "\n# Compressed docstring (" ++ String.intercalate ", " summary ++ ")\n" ++ last
      else
        first ++ "\n# Compressed docstring (" ++ toString lines.length ++ " lines)\n" ++ last

/-- Find the body and the rest after the closing triple quote `qqq`,
taking the nearest close (the lazy `[\s\S]*?`). -/
def findTripleClose (q : Char) : Nat → List Char → Option (List Char × List Char)
  | 0, _ => none
  | _ + 1, [] => none
  | fuel + 1, c :: cs =>
    if listStarts [q, q, q] (c :: cs) then some ([], (c :: cs).drop 3)
    else
      match findTripleClose q fuel cs with
      | some (body, rest) => some (c :: body, rest)
      | none => none

/-- Scanner for `compress_multiline_comments`: at each position, a triple
quote that has a matching close of the same quote starts a match; the
matched text is rewritten by `replaceDocstring` and scanning resumes after
the close (`re.sub` does not rescan replacements). -/
def docScanAux (aggressive : Bool) : Nat → List Char → List Char
  | 0, cs => cs
  | _ + 1, [] => []
  | fuel + 1, c :: cs =>
    if (c == sq || c == dq) && listStarts [c, c] cs then
      match findTripleClose c (fuel + 1) (cs.drop 2) with
      | some (body, rest) =>
        (replaceDocstring aggressive (String.mk ([c, c, c] ++ body ++ [c, c, c]))).data
          ++ docScanAux aggressive fuel rest
      | none => c :: docScanAux aggressive fuel cs
    else c :: docScanAux aggressive fuel cs

/-- `compress_multiline_comments`. -/
def compressMultilineComments (aggressive : Bool) (content : String) : String :=
  String.mk (docScanAux aggressive content.data.length content.data)

/-! ## Single-line comment compaction -/

/-- A comment-only line: `re.match(r'^\s*#.*$', line)`. -/
def isCommentLine (l : String) : Bool :=
  match l.data.dropWhile (pyWs ·) with
  | '#' :: _ => true
  | _ => false

/-- Flush an accumulated comment block.  The source duplicates this logic
verbatim for the mid-file and end-of-file cases; on the empty block it
agrees with the source's `if comment_block:` guard (both yield nothing). -/
def commentFlush (aggressive : Bool) (block : List String) : List String :=
  if block.length > 3 then
    if aggressive && block.length > 5 then
      [block.headD "", "# ... " ++ toString (block.length - 1) ++ " more comment lines ..."]
    else
      [block.headD "", "# ... " ++ toString (block.length - 2) ++ " more comment lines ...",
       block.getLastD ""]
  else block

/-- Line-level core of `compress_single_line_comments`. -/
def commentCore (aggressive : Bool) : List String → List String → List String
  | [], block => commentFlush aggressive block
  | l :: rest, block =>
    if isCommentLine l then commentCore aggressive rest (block ++ [l])
    else commentFlush aggressive block ++ l :: commentCore aggressive rest []

/-- `compress_single_line_comments` (splitlines, fold, join). -/
def compressSingleLineComments (aggressive : Bool) (content : String) : String :=
  joinLines (commentCore aggressive (pySplitlines content) [])

/-! ## Blank-line collapsing

`blank_line_pattern = r'\n\s*\n\s*\n+'`, substituted by `"\n\n"`.  A match
starts at a newline and, by greedy backtracking, extends exactly to the
last newline of the maximal whitespace run starting there, provided that
run contains at least three newlines. -/

/-- Number of newlines in a character list. -/
def countNl (cs : List Char) : Nat := cs.countP (· == '\n')

/-- The prefix of `cs` up to and including its last newline. -/
def upToLastNl (cs : List Char) : List Char :=
  (cs.reverse.dropWhile (fun c => ¬ c == '\n')).reverse

def blankAux : Nat → List Char → List Char
  | 0, cs => cs
  | _ + 1, [] => []
  | fuel + 1, c :: cs =>
    if c == '\n' then
      let run := (c :: cs).takeWhile (pyWs ·)
      if 3 ≤ countNl run then
        '\n' :: '\n' :: blankAux fuel ((c :: cs).drop (upToLastNl run).length)
      else c :: blankAux fuel cs
    else c :: blankAux fuel cs

/-- The `blank_line_pattern.sub('\n\n', content)` pass. -/
def blankCollapse (content : String) : String :=
  String.mk (blankAux content.data.length content.data)

/-! ## Trailing-whitespace stripping: `re.sub(r'[ \t]+$', '', ..., MULTILINE)` -/

def stripTrailAux : Nat → List Char → List Char
  | 0, cs => cs
  | _ + 1, [] => []
  | fuel + 1, c :: cs =>
    if spaceTab c then
      let run := (c :: cs).takeWhile (spaceTab ·)
      let after := (c :: cs).drop run.length
      match after with
      | [] => []
      | '\n' :: _ => stripTrailAux fuel after
      | _ => run ++ stripTrailAux fuel after
    else c :: stripTrailAux fuel cs

/-- The trailing-whitespace pass of `generic_compression`. -/
def stripTrailingWs (content : String) : String :=
  String.mk (stripTrailAux content.data.length content.data)

/-! ## Aggressive-tier extras -/

/-- `re.sub(r'(?<=\S)[ \t]{2,}(?=\S)', ' ', content)`: a maximal space/tab
run of length at least two, with a non-whitespace character immediately
before and after, becomes one space.  `prevSolid` tracks whether the
previous original character was non-whitespace. -/
def spaceCollapseAux (prevSolid : Bool) : Nat → List Char → List Char
  | 0, cs => cs
  | _ + 1, [] => []
  | fuel + 1, c :: cs =>
    if spaceTab c && prevSolid then
      let run := (c :: cs).takeWhile (spaceTab ·)
      let after := (c :: cs).drop run.length
      if 2 ≤ run.length && (match after with | a :: _ => ¬ pyWs a | [] => false) then
        ' ' :: spaceCollapseAux false fuel after
      else c :: spaceCollapseAux false fuel cs
    else c :: spaceCollapseAux (¬ pyWs c) fuel cs

def interiorSpaceCollapse (content : String) : String :=
  String.mk (spaceCollapseAux false content.data.length content.data)

/-- `truncate_long_lines`: lines longer than `max_length + 20` are cut to
`max_length` characters plus an ellipsis (the source computes the
indentation but does not use it in the output). -/
def truncateLongLines (maxLength : Nat) (content : String) : String :=
  joinLines ((pySplitlines content).map (fun l =>
    if l.data.length > maxLength + 20 then String.mk (l.data.take maxLength) ++ "..." else l))

/-- `generic_compression`. -/
def genericCompression (cfg : Config) (content : String) : String :=
  let c := compressMultilineComments cfg.extremelyAggressive content
  let c := compressSingleLineComments cfg.extremelyAggressive c
  let c := blankCollapse c
  let c := stripTrailingWs c
  if cfg.extremelyAggressive then truncateLongLines 100 (interiorSpaceCollapse c) else c

/-! ## Language detection -/

/-- Basename: the part after the last `/` (`os.path.split(p)[1]`). -/
def basenameOf (p : String) : String :=
  String.mk ((p.data.reverse.takeWhile (fun c => ¬ c == '/')).reverse)

/-- Extension part of `os.path.splitext` applied to a basename: everything
from the last dot, except that dots leading the name do not count. -/
def splitextExt (b : String) : String :=
  let core := b.data.dropWhile (· == '.')
  if core.contains '.' then
    String.mk ('.' :: (core.reverse.takeWhile (fun c => ¬ c == '.')).reverse)
  else ""

/-- Root part of `os.path.splitext` applied to a basename. -/
def splitextRoot (b : String) : String :=
  String.mk (b.data.take (b.data.length - (splitextExt b).data.length))

/-- The `language_extensions` table. -/
def languageExtensions : List (String × String) :=
  [(".py", "python"), (".js", "javascript"), (".ts", "typescript"), (".jsx", "react"),
   (".tsx", "react"), (".java", "java"), (".rb", "ruby"), (".go", "go"), (".rs", "rust"),
   (".php", "php"), (".cs", "csharp"), (".cpp", "cpp"), (".c", "c"), (".swift", "swift"),
   (".kt", "kotlin"), (".scala", "scala"), (".html", "html"), (".css", "css"),
   (".json", "json"), (".md", "markdown"), (".yml", "yaml"), (".yaml", "yaml"),
   (".sh", "bash"), (".sql", "sql")]

/-- `detect_language`: extension lookup on the lowered path, else `unknown`. -/
def detectLanguage (filePath : String) : String :=
  (alookup (splitextExt (basenameOf (pyLower filePath))) languageExtensions).getD "unknown"

/-- Languages that have an entry in `language_handlers`. -/
def handledLanguages : List String :=
  ["python", "javascript", "typescript", "json", "html", "css", "markdown"]

/-! ## Python handler (`compress_python`)

The source parses the generically-compressed content with `ast.parse`,
collects every `Import`/`ImportFrom` name via `ast.walk`, and when the
count exceeds the threshold rewrites the imports into one summary line.
The full CPython parser is outside this embedding, so `compressPython` is
defined exactly on contents whose lines are blank, plain import statements
or simple `name = value` assignments: there `ast.parse` succeeds, the
walked import list is exactly the import lines' names, and the
function/class and bracket-literal passes of the source are no-ops (no
`FunctionDef`/`ClassDef` nodes, no `[`/`{` characters).  Outside that
fragment the embedding returns `none`. -/

inductive ImportEntry where
  | imp (name : String)
  | impFrom (module name : String)
deriving DecidableEq, Repr

/-- Split a character list at every character satisfying `p`
(Python `str.split(sep)` for a one-character separator: `""` gives `[""]`). -/
def splitCharAux (p : Char → Bool) : List Char → List Char → List String
  | [], acc => [String.mk acc.reverse]
  | c :: cs, acc =>
    if p c then String.mk acc.reverse :: splitCharAux p cs []
    else splitCharAux p cs (c :: acc)

/-- Split on a separator character and strip each part (used for the
comma-separated name list of an import statement). -/
def splitCommaStrip (s : String) : List String :=
  (splitCharAux (· == ',') s.data []).map pyStrip

/-- A clean dotted identifier: non-empty, letters/digits/underscore/dot,
no leading dot (so `ast` assigns a real module name). -/
def cleanName (s : String) : Bool :=
  ¬ s.data.isEmpty && s.data.all (fun c => c.isAlphanum || c == '_' || c == '.')
    && ¬ (s.data.headD ' ' == '.')

/-- Parse one top-level import line into the per-name entries that the
source's `ast.walk` loop produces for it. -/
def parseImportLine (l : String) : Option (List ImportEntry) :=
  if strStarts "import " l then
    let names := splitCommaStrip (String.mk (l.data.drop 7))
    if ¬ names.isEmpty && names.all cleanName then some (names.map .imp) else none
  else if strStarts "from " l && containsSub " import " l then
    let rest := l.data.drop 5
    let m := String.mk (rest.takeWhile (fun c => ¬ c == ' '))
    let after := String.mk (rest.drop (m.data.length + " import ".data.length))
    if cleanName m && listStarts " import ".data (rest.drop m.data.length) then
      let names := splitCommaStrip after
      if ¬ names.isEmpty && names.all cleanName then some (names.map (.impFrom m)) else none
    else none
  else none

/-- All import entries of a content, in line order (for a module of simple
statements this matches `ast.walk` order; only count and name set are used). -/
def collectImports (lines : List String) : List ImportEntry :=
  ((lines.map parseImportLine).map (Option.getD · [])).flatten

/-- The module label the source derives from a rendered entry:
`name.split()[-1].split('.')[0]` of `"import N"` or `"from M import N"` —
in both cases the first dotted component of the *name* `N`. -/
def moduleLabel : ImportEntry → String
  | .imp n => String.mk (n.data.takeWhile (fun c => ¬ c == '.'))
  | .impFrom _ n => String.mk (n.data.takeWhile (fun c => ¬ c == '.'))

/-- Does a line match the removal regex
`(?:^import.*$|^from.*import.*$)` of the import-summary step? -/
def importLineMatch (l : String) : Bool :=
  strStarts "import" l || (strStarts "from" l && containsSub "import" l)

/-- Remove every line matching the removal regex; the trailing `[\n\r]*` of
the pattern also consumes the newlines of immediately following empty lines
(tracked by the `skipping` flag). -/
def removeImportLinesAux : Bool → List String → List String
  | _, [] => []
  | skipping, l :: rest =>
    if skipping && l == "" then removeImportLinesAux true rest
    else if importLineMatch l then removeImportLinesAux true rest
    else l :: removeImportLinesAux false rest

def removeImportLines (lines : List String) : List String :=
  removeImportLinesAux false lines

/-- The import-summarization step of `compress_python` (source lines
210–229), applied to the post-`generic_compression` content. -/
def pythonImportStep (cfg : Config) (content : String) : String :=
  let lines := pySplitlines content
  let imports := collectImports lines
  if imports.length > cfg.importSummaryThreshold then
    let importModules := sortedSet (imports.map moduleLabel)
    "# Imports summary: " ++ String.intercalate ", " importModules ++ "\n\n"
      ++ pyLstrip (joinLines (removeImportLines lines))
  else content

/-- A simple non-import statement line of the modelled Python fragment. -/
def simpleStmtLine (l : String) : Bool :=
  ¬ l.data.isEmpty && l.data.all (fun c => c.isAlphanum || c == ' ' || c == '=' || c == '_' || c == '.')
    && (l.data.headD ' ').isAlpha && containsSub "=" l
    && ¬ strStarts "import" l && ¬ strStarts "from" l

/-- Guard for the modelled Python fragment (checked on the content that
`ast.parse` actually sees): every line is blank, a parseable import or a
simple statement, and the line view is faithful to the raw string. -/
def pyModelOk (content : String) : Bool :=
  (pySplitlines content).all (fun l => l == "" || (parseImportLine l).isSome || simpleStmtLine l)
    && joinLines (pySplitlines content) == content

/-- `compress_python` on the modelled fragment; `none` outside it. -/
def compressPython (cfg : Config) (content : String) : Option String :=
  let c := genericCompression cfg content
  if pyModelOk c then some (pythonImportStep cfg c) else none

/-! ## JSON handler (`compress_json`)

`json.loads` itself is not modelled: `compressJson` receives the parse
result (`none` for a parse failure, in which case the source returns the
content unchanged) alongside the raw content. -/

inductive Json where
  | jnull
  | jbool (b : Bool)
  | jnum (n : Int)
  | jstr (s : String)
  | jarr (elems : List Json)
  | jobj (fields : List (String × Json))

mutual

/-- `json.dumps(v, indent=2)` at a given current indentation, for values
whose strings need no escaping (all inputs below). -/
def dumpsVal (ind : Nat) : Json → String
  | .jnull => "null"
  | .jbool true => "true"
  | .jbool false => "false"
  | .jnum n => toString n
  | .jstr s => String.mk [dq] ++ s ++ String.mk [dq]
  | .jarr [] => "[]"
  | .jarr (e :: es) =>
    "[\n" ++ String.intercalate ",\n" (dumpsItems (ind + 2) (e :: es))
      ++ "\n" ++ String.mk (List.replicate ind ' ') ++ "]"
  | .jobj [] => "\x7b\x7d"
  | .jobj (f :: fs) =>
    "\x7b\n" ++ String.intercalate ",\n" (dumpsFields (ind + 2) (f :: fs))
      ++ "\n" ++ String.mk (List.replicate ind ' ') ++ "\x7d"

def dumpsItems (ind : Nat) : List Json → List String
  | [] => []
  | e :: es => (String.mk (List.replicate ind ' ') ++ dumpsVal ind e) :: dumpsItems ind es

def dumpsFields (ind : Nat) : List (String × Json) → List String
  | [] => []
  | (k, v) :: fs =>
    (String.mk (List.replicate ind ' ') ++ String.mk [dq] ++ k ++ String.mk [dq] ++ ": "
      ++ dumpsVal ind v) :: dumpsFields ind fs

end

/-- `json.dumps(v, indent=2)`. -/
def pyDumps (v : Json) : String := dumpsVal 0 v

/-- `compress_json`, with the parse result passed in. -/
def compressJson (cfg : Config) (parsed : Option Json) (content : String) : String :=
  match parsed with
  | none => content
  | some data =>
    let arrBranch : Option String :=
      match data with
      | .jarr l =>
        if l.length > 10 then
          some ("// JSON array with " ++ toString l.length ++ " items. First 3 items:\n"
            ++ pyDumps (.jarr (l.take 3)))
        else if l.length > 3 && cfg.extremelyAggressive then
          some ("// JSON array with " ++ toString l.length ++ " items. First item:\n"
            ++ pyDumps (l.headD .jnull))
        else none
      | _ => none
    match arrBranch with
    | some r => r
    | none =>
      let objBranch : Option String :=
        match data with
        | .jobj fields =>
          if fields.length > 20 then
            let sampleKeys := (fields.take 5).map Prod.fst
            some ("// JSON object with " ++ toString fields.length ++ " keys. Sample keys: "
              ++ String.intercalate ", " (sampleKeys.take 10) ++ "...\n"
              ++ pyDumps (.jobj (fields.take 5)))
          else if fields.length > 5 && cfg.extremelyAggressive then
            let sampleKeys := (fields.take 3).map Prod.fst
            some ("// JSON object with " ++ toString fields.length ++ " keys. Sample keys: "
              ++ String.intercalate ", " sampleKeys ++ "...\n"
              ++ pyDumps (.jobj (fields.take 3)))
          else none
        | _ => none
      match objBranch with
      | some r => r
      | none => if content.data.length < 1000 then pyDumps data else content

/-! ## File-level compression (`compress_file_content`) -/

/-- The over-long-file truncation of `compress_file_content` (source lines
124–131): keep the first `max_lines_to_keep//3` lines and — because the
slice `lines[-self.max_lines_to_keep//3:]` floor-divides the *negated*
cap, `-500//3 = -167` — the last `⌈max_lines_to_keep/3⌉ = (max+2)//3`
lines, around a marker whose count is `line_count - 2*max_lines_to_keep//3`
(Python precedence: `(2*max)//3`). -/
def truncateOverLong (cfg : Config) (content : String) (lineCount : Nat) : String :=
  let lines := pySplitlines content
  joinLines (lines.take (cfg.maxLinesToKeep / 3))
    ++ "\n# ... " ++ toString (lineCount - 2 * cfg.maxLinesToKeep / 3) ++ " more lines ...\n"
    ++ joinLines (takeLast ((cfg.maxLinesToKeep + 2) / 3) lines)

/-- `compress_file_content`.  Returns `none` only when dispatch reaches a
language handler outside this embedding (javascript/typescript/html/css/
markdown, or a json/python content outside the modelled fragments). -/
def compressFileContent (cfg : Config) (filePath content : String) : Option String :=
  let lineCount := (pySplitlines content).length
  if lineCount < cfg.minLinesForCompression && ¬ cfg.extremelyAggressive then some content
  else
    let truncated := lineCount > cfg.maxLinesToKeep
    let content := if truncated then truncateOverLong cfg content lineCount else content
    let lineCount := if truncated then cfg.maxLinesToKeep / 3 * 2 + 1 else lineCount
    let language := detectLanguage filePath
    if cfg.extremelyAggressive
        && (containsSub "test" (pyLower filePath) || containsSub "spec" (pyLower filePath)) then
      some ("# Test file summary: " ++ filePath ++ "\n# " ++ toString lineCount
        ++ " lines of testing code\n# Skipped in heavy compression mode")
    else if language == "python" then compressPython cfg content
    else if handledLanguages.contains language then none
    else some (genericCompression cfg content)

/-! ## Importance scoring (`analyze_file_importance`) -/

/-- `analyze_file_importance`; the cross-file reference count
`repo_stats['imports'].get(file_path, 0)` is passed as `importCount`. -/
def analyzeFileImportance (filePath : String) (importCount : Nat) : Nat :=
  let filename := basenameOf filePath
  let ext := splitextExt (pyLower filename)
  if ["main.py", "app.py", "index.js", "server.js", "app.js"].contains (pyLower filename) then 10
  else if [".py", ".js", ".ts", ".jsx", ".tsx"].contains ext then 8
  else if strEnds "config.js" filename || strEnds "config.py" filename
      || strEnds "settings.py" filename then 7
  else if importCount > 5 then 7
  else if containsSub "test" filename || containsSub "spec" filename then 3
  else 5

/-- The `stats['imports']` count of `analyze_repository` for one file:
for every other file, one point if the content contains
`"import " + name` or `"from " + name`, and another if it contains
`"import "` together with `"from '" + name` (the JS heuristic). -/
def importsCount (allContent : List (String × String)) (filePath : String) : Nat :=
  let nameNoExt := splitextRoot (basenameOf filePath)
  (allContent.filter (fun o => ¬ (o.1 == filePath))).foldl
    (fun acc o =>
      let a := if containsSub ("import " ++ nameNoExt) o.2
                  || containsSub ("from " ++ nameNoExt) o.2 then 1 else 0
      let b := if containsSub "import " o.2
                  && containsSub ("from " ++ String.mk [sq] ++ nameNoExt) o.2 then 1 else 0
      acc + a + b) 0

/-! ## Duplicate detection (`find_duplicate_code`) -/

structure DupInfo where
  content : String
  files : List String
deriving DecidableEq, Repr

/-- Chunk boundary: blank or comment-like line
(`not stripped or stripped.startswith(('#','//','/*','*'))`). -/
def isBoundaryLine (l : String) : Bool :=
  let s := pyStrip l
  s.data.isEmpty || strStarts "#" s || strStarts "//" s || strStarts "/*" s || strStarts "*" s

/-- The delimiter-separated chunks of one file whose joined text exceeds
50 characters, paired with the file path. -/
def fileChunksAux (filePath : String) : List String → List String → List (String × String)
  | [], cur =>
    if ¬ cur.isEmpty && (joinLines cur).data.length > 50 then [(filePath, joinLines cur)] else []
  | l :: rest, cur =>
    if isBoundaryLine l then
      (if ¬ cur.isEmpty && (joinLines cur).data.length > 50 then [(filePath, joinLines cur)] else [])
        ++ fileChunksAux filePath rest []
    else fileChunksAux filePath rest (cur ++ [l])

def fileChunks (filePath content : String) : List (String × String) :=
  fileChunksAux filePath (pySplitlines content) []

/-- All chunks of the repository, in file order then line order. -/
def allChunks (allContent : List (String × String)) : List (String × String) :=
  (allContent.map (fun pc => fileChunks pc.1 pc.2)).flatten

/-- One step of the hashing loop of `find_duplicate_code`; the md5 hash is
modelled by the chunk text itself.  State: (`chunk_hashes`, `duplicates`). -/
def dupStep (acc : List (String × String) × List (String × DupInfo)) (c : String × String) :
    List (String × String) × List (String × DupInfo) :=
  let (hashes, dups) := acc
  let (filePath, chunk) := c
  match alookup chunk hashes with
  | some first =>
    match alookup chunk dups with
    | some info => (hashes, aupdate chunk { info with files := info.files ++ [filePath] } dups)
    | none => (hashes, dups ++ [(chunk, { content := chunk, files := [first, filePath] })])
  | none => (hashes ++ [(chunk, filePath)], dups)

/-- `find_duplicate_code`: the `duplicates` table keyed by chunk text. -/
def findDuplicateCode (allContent : List (String × String)) : List (String × DupInfo) :=
  ((allChunks allContent).foldl dupStep ([], [])).2

/-! ## Repository orchestration (`compress_repository`) -/

/-- `add_compression_header`. -/
def addCompressionHeader (filePath content : String) : String :=
  "# Note: This file has been compressed for LLM analysis\n# Original file: "
    ++ filePath ++ "\n\n" ++ content

/-- The low-importance summary stub of the orchestrator. -/
def lowImportanceStub (filePath content : String) : String :=
  "# File summary: " ++ filePath ++ " (" ++ toString (pySplitlines content).length
    ++ " lines, " ++ detectLanguage filePath
    ++ ")\n# This file was compressed due to lower relevance.\n\n# First few lines:\n"
    ++ joinLines ((pySplitlines content).take 10) ++ "\n\n# ..."

/-- Result of `compress_repository`.  `finalInput` is the state of the
caller's `all_content` dict after the call (the source mutates it in the
heavy-tier capping step); `compressed` is the returned compressed map.
The natural-language summary string also returned by the source depends on
statistics no claim mentions and is not modelled. -/
structure RepoResult where
  finalInput : List (String × String)
  compressed : List (String × String)
deriving DecidableEq, Repr

/-- Per-file compression loop body of `compress_repository`. -/
def repoFileStep (cfg : Config) (importanceMap : List (String × Nat))
    (acc : Option (List (String × String))) (pc : String × String) :
    Option (List (String × String)) :=
  acc.bind (fun compressed =>
    let importance := (alookup pc.1 importanceMap).getD 5
    if importance ≥ 8 then
      (compressFileContent cfg pc.1 pc.2).map (fun out => compressed ++ [(pc.1, out)])
    else if importance ≥ 5 then
      let content := if cfg.extremelyAggressive then addCompressionHeader pc.1 pc.2 else pc.2
      (compressFileContent cfg pc.1 content).map (fun out => compressed ++ [(pc.1, out)])
    else if (pySplitlines pc.2).length > 30 && cfg.extremelyAggressive then
      some (compressed ++ [(pc.1, lowImportanceStub pc.1 pc.2)])
    else
      (compressFileContent cfg pc.1 pc.2).map (fun out => compressed ++ [(pc.1, out)]))

/-- The duplicate-substitution pass of `compress_repository`. -/
def dupSubstitution (cfg : Config) (dups : List (String × DupInfo))
    (compressed : List (String × String)) : List (String × String) :=
  dups.foldl
    (fun comp hd =>
      if hd.2.files.length ≥ cfg.duplicateThreshold then
        (hd.2.files.drop 1).foldl
          (fun comp2 filePath =>
            match alookup filePath comp2 with
            | some cur =>
              if containsSub hd.2.content cur then
                aupdate filePath
                  (pyReplace cur hd.2.content
                    ("# DUPLICATE CODE: Same as in " ++ hd.2.files.headD "" ++ "\n# "
                      ++ toString (pySplitlines hd.2.content).length ++ " lines\n"))
                  comp2
              else comp2
            | none => comp2)
          comp
      else comp)
    compressed

/-- `compress_repository`. -/
def compressRepository (cfg : Config) (allContent : List (String × String)) :
    Option RepoResult :=
  let importanceMap : List (String × Nat) :=
    allContent.map (fun pc => (pc.1, analyzeFileImportance pc.1 (importsCount allContent pc.1)))
  let dups := findDuplicateCode allContent
  let working :=
    if cfg.extremelyAggressive && allContent.length > 20 then
      let ranked := sortScoreDesc (allContent.map (fun pc => (pc.1, (alookup pc.1 importanceMap).getD 0)))
      let topFiles := (ranked.take 15).map Prod.fst
      let skipped := (allContent.map Prod.fst).filter (fun f => ¬ topFiles.contains f)
      if ¬ skipped.isEmpty then
        let synthetic := "# Skipped " ++ toString skipped.length
          ++ " less important files in heavy compression mode\n\n# Files skipped:\n"
          ++ joinLines (skipped.map (fun f => "# - " ++ f))
        (allContent ++ [("_SKIPPED_FILES_SUMMARY.txt", synthetic)]).filter
          (fun pc => ¬ skipped.contains pc.1)
      else allContent
    else allContent
  (working.foldl (repoFileStep cfg importanceMap) (some [])).map
    (fun compressed => { finalInput := working, compressed := dupSubstitution cfg dups compressed })

/-! ## Rule-list reading of the importance scorer

`importanceRules` renders the scorer as an ordered list of
(condition, score) pairs evaluated first-match-wins — the shape in which
the specification states it.  Two variants differ only in the
cross-reference threshold: the spec/claim text says "referenced from ≥5
other files", the source tests `import_count > 5`. -/

def firstMatchScore (dflt : Nat) : List (Bool × Nat) → Nat
  | [] => dflt
  | (c, s) :: rest => if c then s else firstMatchScore dflt rest

/-- The ordered rule list of `analyze_file_importance`, parameterised by
the cross-reference condition. -/
def importanceRules (filePath : String) (refCond : Bool) : List (Bool × Nat) :=
  let filename := basenameOf filePath
  let ext := splitextExt (pyLower filename)
  [(["main.py", "app.py", "index.js", "server.js", "app.js"].contains (pyLower filename), 10),
   ([".py", ".js", ".ts", ".jsx", ".tsx"].contains ext, 8),
   (strEnds "config.js" filename || strEnds "config.py" filename
      || strEnds "settings.py" filename, 7),
   (refCond, 7),
   (containsSub "test" filename || containsSub "spec" filename, 3)]

/-- The scorer as the source implements it, in rule-list form
(cross-reference rule fires for counts strictly above 5). -/
def importanceSpecOrder (filePath : String) (importCount : Nat) : Nat :=
  firstMatchScore 5 (importanceRules filePath (importCount > 5))

/-- The scorer as claim C5 words it (cross-reference rule fires already at
5 referencing files). -/
def importanceClaimOrder (filePath : String) (importCount : Nat) : Nat :=
  firstMatchScore 5 (importanceRules filePath (importCount ≥ 5))

/-! ## Concrete inputs used by the claim theorems -/

/-- Claim C1/C9 input: 25 one-line files `f1.txt` … `f25.txt`. -/
def input25 : List (String × String) :=
  (List.range 25).map (fun i => ("f" ++ toString (i + 1) ++ ".txt", "x"))

/-- The synthetic summary text `compress_repository` inserts into the
input map for `input25` (before it is itself compressed). -/
def synText25 : String :=
  "# Skipped 10 less important files in heavy compression mode\n\n# Files skipped:\n"
    ++ joinLines (((List.range 10).map (fun i => "# - f" ++ toString (i + 16) ++ ".txt")))

/-- A ten-line, 149-character, comment-free chunk. -/
def chunkA : String :=
  joinLines ((List.range 10).map (fun i => "alpha" ++ toString i ++ " = beta" ++ toString i))

/-- Claim C2 (amended scenario): three small files sharing `chunkA`. -/
def inputC2 : List (String × String) :=
  [("d1.log", chunkA), ("d2.log", chunkA), ("d3.log", chunkA)]

/-- A ten-line shared chunk whose last line carries a trailing space. -/
def chunkWs : String :=
  joinLines (((List.range 9).map (fun i => "alpha" ++ toString i ++ " = beta" ++ toString i))
    ++ ["gamma = delta "])

/-- Claim C2 (counterexample scenario): `e2.log` is long enough to be
compacted, which strips the trailing space inside its copy of the chunk. -/
def inputE : List (String × String) :=
  [("e1.log", chunkWs),
   ("e2.log", chunkWs ++ "\n\nex1 = z1\nex2 = z2\nex3 = z3\nex4 = z4"),
   ("e3.log", chunkWs)]

/-- Rendered form of a from-import line, `from <module> import <name>`. -/
def renderFromImport (p : String × String) : String :=
  "from " ++ p.1 ++ " import " ++ p.2

/-- Claim C3: the module/name pairs of the six from-imports of `pyInput`. -/
def c3pairs : List (String × String) :=
  [("collections", "Counter"), ("os.path", "join"), ("re", "sub"),
   ("json", "dumps"), ("hashlib", "md5"), ("logging", "getLogger")]

/-- Claim C3 input: six top-level from-imports and one simple statement. -/
def pyInput : String :=
  "from collections import Counter\nfrom os.path import join\nfrom re import sub\n"
    ++ "from json import dumps\nfrom hashlib import md5\nfrom logging import getLogger\nx = 1"

/-- Claim C3 second input: plain dotted imports mixed with from-imports. -/
def pyInput2 : String :=
  "import os.path\nimport sys\nfrom collections import Counter\nfrom json import dumps\n"
    ++ "from re import sub\nfrom hashlib import md5\ny = 2"

/-- Claim C4 input: 501 one-character lines. -/
def c4content : String := joinLines (List.replicate 501 "a")

/-- Claim C5 input: `data.txt` referenced by exactly five other files. -/
def snapshot5 : List (String × String) :=
  [("data.txt", "value = 1"), ("o1.java", "import data"), ("o2.java", "import data"),
   ("o3.java", "import data"), ("o4.java", "import data"), ("o5.java", "import data")]

/-- Claim C6 inputs: integer arrays of length 15 and 5. -/
def jsonList15 : List Json := (List.range 15).map (fun i => Json.jnum i)

def jsonList5 : List Json := (List.range 5).map (fun i => Json.jnum i)

/-- Claim C7 counterexample input: one file containing `chunkA` twice. -/
def inputSolo : List (String × String) := [("solo.log", chunkA ++ "\n\n" ++ chunkA)]

/-- Claim C8 run of comment lines: first line, `k` middle lines, last line. -/
def commentRun (k : Nat) : List String :=
  "# start" :: List.replicate k "# mid" ++ ["# end"]

/-- Occurrence list of a chunk text over a chunk stream: the owning paths
of all chunks with exactly that text, in stream order. -/
def occList (t : String) (cl : List (String × String)) : List String :=
  (cl.filter (fun c => c.2 == t)).map Prod.fst

/-- Invariant of the `find_duplicate_code` hashing loop after processing a
prefix `pre` of the chunk stream: the hash table maps each text to its
first owner, and the duplicates table holds exactly the texts with at
least two occurrences, with their full occurrence list. -/
def dupInv (pre : List (String × String))
    (st : List (String × String) × List (String × DupInfo)) : Prop :=
  (∀ t, alookup t st.1 = (occList t pre).head?) ∧
  (∀ t, alookup t st.2 =
    if 2 ≤ (occList t pre).length then some ⟨t, occList t pre⟩ else none)

set_option maxRecDepth 100000

/-! # Supporting lemmas -/

/-- Flushing the empty comment block produces nothing (the source guards
this case with `if comment_block:`; both give the empty result). -/
theorem commentFlush_nil (aggr : Bool) : commentFlush aggr [] = [] := rfl

/-- Feeding a run of comment lines into the fold just extends the pending
block. -/
theorem commentCore_append_comments (aggr : Bool) (cs : List String) :
    ∀ (rest block : List String), (∀ l ∈ cs, isCommentLine l = true) →
      commentCore aggr (cs ++ rest) block = commentCore aggr rest (block ++ cs) := by
  induction cs with
  | nil => intro rest block _; simp
  | cons c cs ih =>
    intro rest block h
    have hc : isCommentLine c = true := h c (by simp)
    have hstep : commentCore aggr ((c :: cs) ++ rest) block
        = commentCore aggr (cs ++ rest) (block ++ [c]) := by
      simp [commentCore, hc]
    rw [hstep, ih rest (block ++ [c]) (fun l hl => h l (by simp [hl])),
      List.append_cons block c cs]

/-- Every line of a `commentRun` is a comment line. -/
theorem commentRun_all_comments (k : Nat) :
    ∀ l ∈ commentRun k, isCommentLine l = true := by
  intro l hl
  rw [commentRun] at hl
  rcases List.mem_cons.mp hl with h | hl2
  · subst h; decide
  rcases List.mem_append.mp hl2 with h | h
  · rw [List.eq_of_mem_replicate h]; decide
  · rw [List.mem_singleton.mp h]; decide

/-- Length of a `commentRun`. -/
theorem commentRun_length (k : Nat) : (commentRun k).length = k + 2 := by
  simp [commentRun]

/-- Last line of a `commentRun`. -/
theorem commentRun_getLastD (k : Nat) : (commentRun k).getLastD "" = "# end" := by
  have : commentRun k = ("# start" :: List.replicate k "# mid") ++ ["# end"] := by
    simp [commentRun]
  rw [this, List.getLastD_concat]

/-! # Lemmas for the import-summary claim (C3) -/

/-- String append acts as list append on the character data. -/
theorem data_append (a b : String) : (a ++ b).data = a.data ++ b.data := rfl

/-- Structure eta for the string constructor. -/
theorem mk_data (l : List Char) : (String.mk l).data = l := rfl

/-- Structure eta, the other way. -/
theorem mk_data_eta (s : String) : String.mk s.data = s := rfl

/-- A pattern starts any list it prefixes. -/
theorem listStarts_append_self (p x : List Char) : listStarts p (p ++ x) = true := by
  induction p with
  | nil => rfl
  | cons c cs ih => simp [listStarts, ih]

/-- A needle is found inside any list containing it as an infix. -/
theorem listStarts_cons_self (c : Char) (cs b : List Char) :
    listStarts (c :: cs) (c :: (cs ++ b)) = true := by
  simp [listStarts, listStarts_append_self]

/-- A needle is found inside any list containing it as an infix. -/
theorem containsSubList_mid (n : List Char) :
    ∀ (a b : List Char), containsSubList n (a ++ (n ++ b)) = true := by
  intro a
  induction a with
  | nil =>
    intro b
    cases n with
    | nil => cases b <;> simp [containsSubList, listStarts]
    | cons c cs => simp [containsSubList, listStarts_cons_self]
  | cons x xs ih =>
    intro b
    simp [containsSubList, ih]

/-- The character condition packed inside `cleanName`. -/
theorem cleanName_all (s : String) (h : cleanName s = true) :
    ∀ c ∈ s.data, (c.isAlphanum || c == '_' || c == '.') = true := by
  unfold cleanName at h
  simp only [Bool.and_eq_true] at h
  intro c hc
  exact List.all_eq_true.mp h.1.2 c hc

/-- A clean-name character is not a space. -/
theorem clean_char_not_space (c : Char)
    (h : (c.isAlphanum || c == '_' || c == '.') = true) : (c == ' ') = false := by
  by_cases hc : c = ' '
  · subst hc; exact absurd h (by decide)
  · simp [hc]

/-- A clean-name character is not a comma. -/
theorem clean_char_not_comma (c : Char)
    (h : (c.isAlphanum || c == '_' || c == '.') = true) : (c == ',') = false := by
  by_cases hc : c = ','
  · subst hc; exact absurd h (by decide)
  · simp [hc]

/-- A clean-name character is not whitespace. -/
theorem clean_char_not_ws (c : Char)
    (h : (c.isAlphanum || c == '_' || c == '.') = true) : pyWs c = false := by
  cases hw : pyWs c
  · rfl
  · exfalso
    unfold pyWs at hw
    simp only [Bool.or_eq_true, beq_iff_eq] at hw
    rcases hw with ((((h1 | h1) | h1) | h1) | h1) | h1 <;> subst h1 <;>
      exact absurd h (by decide)

/-- Taking up to the first space stops exactly at an appended space. -/
theorem takeWhile_not_space_append (a : List Char)
    (ha : ∀ c ∈ a, (c == ' ') = false) (b : List Char) :
    (a ++ ' ' :: b).takeWhile (fun c => ¬ c == ' ') = a := by
  induction a with
  | nil => simp [List.takeWhile_cons]
  | cons c cs ih =>
    have hc := ha c (by simp)
    rw [List.cons_append, List.takeWhile_cons, if_pos (by simp [hc])]
    rw [ih (fun x hx => ha x (by simp [hx]))]

/-- Dropping the length of a prefix plus `k` drops the prefix and `k` more. -/
theorem drop_append_add (a b : List Char) (k : Nat) :
    (a ++ b).drop (a.length + k) = b.drop k := by
  induction a with
  | nil => simp
  | cons c cs ih =>
    rw [show (c :: cs).length + k = (cs.length + k) + 1 from by
      rw [List.length_cons]; omega]
    simpa using ih

/-- Splitting on a separator that never occurs returns the single part. -/
theorem splitCharAux_no_sep (p : Char → Bool) :
    ∀ (cs acc : List Char), (∀ c ∈ cs, p c = false) →
      splitCharAux p cs acc = [String.mk (acc.reverse ++ cs)] := by
  intro cs
  induction cs with
  | nil => intro acc _; simp [splitCharAux]
  | cons c rest ih =>
    intro acc h
    have hc := h c (by simp)
    rw [splitCharAux, if_neg (by simp [hc])]
    rw [ih (c :: acc) (fun x hx => h x (by simp [hx]))]
    simp

/-- `dropWhile` is the identity when no element satisfies the predicate. -/
theorem dropWhile_all_false (p : Char → Bool) (l : List Char)
    (h : ∀ c ∈ l, p c = false) : l.dropWhile p = l := by
  cases l with
  | nil => rfl
  | cons c cs =>
    rw [List.dropWhile_cons]
    simp [h c (by simp)]

/-- Stripping is the identity on whitespace-free strings. -/
theorem pyStrip_clean (s : String) (h : ∀ c ∈ s.data, pyWs c = false) :
    pyStrip s = s := by
  unfold pyStrip
  rw [dropWhile_all_false (pyWs ·) s.data h]
  rw [dropWhile_all_false (pyWs ·) s.data.reverse
    (fun c hc => h c (List.mem_reverse.mp hc))]
  rw [List.reverse_reverse]

/-- Parsing a rendered clean from-import line yields its single entry. -/
theorem parseImportLine_from (m n : String) (hm : cleanName m = true)
    (hn : cleanName n = true) :
    parseImportLine (renderFromImport (m, n)) = some [ImportEntry.impFrom m n] := by
  have hdata : (renderFromImport (m, n)).data
      = "from ".data ++ (m.data ++ (" import ".data ++ n.data)) := by
    simp [renderFromImport, data_append, List.append_assoc]
  have hc1 : strStarts "import " (renderFromImport (m, n)) = false := by
    unfold strStarts
    rw [hdata]
    rfl
  have hc2 : strStarts "from " (renderFromImport (m, n)) = true := by
    unfold strStarts
    rw [hdata]
    exact listStarts_append_self "from ".data _
  have hc3 : containsSub " import " (renderFromImport (m, n)) = true := by
    unfold containsSub
    rw [hdata, show "from ".data ++ (m.data ++ (" import ".data ++ n.data))
        = ("from ".data ++ m.data) ++ (" import ".data ++ n.data) from by
      simp [List.append_assoc]]
    exact containsSubList_mid " import ".data _ _
  have hrest : (renderFromImport (m, n)).data.drop 5
      = m.data ++ (" import ".data ++ n.data) := by
    rw [hdata]
    rfl
  have htw : (m.data ++ (" import ".data ++ n.data)).takeWhile (fun c => ¬ c == ' ')
      = m.data := by
    rw [show " import ".data ++ n.data
        = ' ' :: ("import ".data ++ n.data) from rfl]
    exact takeWhile_not_space_append m.data
      (fun c hc => clean_char_not_space c (cleanName_all m hm c hc)) _
  have hmid : (m.data ++ (" import ".data ++ n.data)).drop m.data.length
      = " import ".data ++ n.data := by
    have := drop_append_add m.data (" import ".data ++ n.data) 0
    simpa using this
  have hafter : (m.data ++ (" import ".data ++ n.data)).drop
      (m.data.length + " import ".data.length) = n.data := by
    rw [drop_append_add m.data (" import ".data ++ n.data) " import ".data.length]
    rw [show " import ".data.length = " import ".data.length + 0 from by omega]
    rw [drop_append_add " import ".data n.data 0]
    rfl
  have hsplit : splitCommaStrip (String.mk n.data) = [n] := by
    unfold splitCommaStrip
    rw [mk_data, splitCharAux_no_sep (· == ',') n.data []
      (fun c hc => clean_char_not_comma c (cleanName_all n hn c hc))]
    simp only [List.reverse_nil, List.nil_append, List.map_cons, List.map_nil]
    rw [mk_data_eta n,
      pyStrip_clean n (fun c hc => clean_char_not_ws c (cleanName_all n hn c hc))]
  unfold parseImportLine
  rw [hc1, hc2, hc3]
  simp only [Bool.false_eq_true, if_false, Bool.and_self, if_true]
  rw [hrest, htw]
  simp only [mk_data_eta]
  have hmid2 : List.drop m.data.length
      (m.data ++ ([' ', 'i', 'm', 'p', 'o', 'r', 't', ' '] ++ n.data))
      = [' ', 'i', 'm', 'p', 'o', 'r', 't', ' '] ++ n.data := by
    simpa using drop_append_add m.data ([' ', 'i', 'm', 'p', 'o', 'r', 't', ' '] ++ n.data) 0
  have htail : ([' ', 'i', 'm', 'p', 'o', 'r', 't', ' '] ++ n.data).drop
      ([' ', 'i', 'm', 'p', 'o', 'r', 't', ' '] : List Char).length = n.data := by
    simpa using drop_append_add [' ', 'i', 'm', 'p', 'o', 'r', 't', ' '] n.data 0
  have hafter2 : List.drop (m.data.length + ([' ', 'i', 'm', 'p', 'o', 'r', 't', ' '] : List Char).length)
      (m.data ++ ([' ', 'i', 'm', 'p', 'o', 'r', 't', ' '] ++ n.data)) = n.data := by
    rw [drop_append_add m.data ([' ', 'i', 'm', 'p', 'o', 'r', 't', ' '] ++ n.data)
      ([' ', 'i', 'm', 'p', 'o', 'r', 't', ' '] : List Char).length, htail]
  simp only [hmid2, hafter2, hsplit]
  rw [if_pos (show (cleanName m && listStarts [' ', 'i', 'm', 'p', 'o', 'r', 't', ' ']
      ([' ', 'i', 'm', 'p', 'o', 'r', 't', ' '] ++ n.data)) = true from by
    rw [hm, listStarts_append_self]; rfl)]
  rw [if_pos (show (decide ¬([n].isEmpty = true) && [n].all cleanName) = true from by
    simp [hn])]
  rfl

/-- `collectImports` over rendered clean from-imports plus one code line. -/
theorem collectImports_shape (ms : List (String × String))
    (h : ∀ p ∈ ms, cleanName p.1 = true ∧ cleanName p.2 = true) :
    collectImports (ms.map renderFromImport ++ ["x = 1"])
      = ms.map (fun p => ImportEntry.impFrom p.1 p.2) := by
  induction ms with
  | nil => rfl
  | cons p ps ih =>
    obtain ⟨m, n⟩ := p
    have hp := h (m, n) (by simp)
    have hrec := ih (fun q hq => h q (by simp [hq]))
    simp only [collectImports, List.map_cons, List.cons_append, List.flatten_cons] at hrec ⊢
    rw [parseImportLine_from m n hp.1 hp.2, hrec]
    simp

/-- A rendered from-import line matches the removal regex. -/
theorem importLineMatch_render (m n : String) :
    importLineMatch (renderFromImport (m, n)) = true := by
  have hdata2 : (renderFromImport (m, n)).data
      = ("from ".data ++ (m.data ++ [' '])) ++ ("import".data ++ (' ' :: n.data)) := by
    simp [renderFromImport, data_append, List.append_assoc]
  have h1 : strStarts "from" (renderFromImport (m, n)) = true := by
    unfold strStarts
    rw [hdata2]
    rfl
  have h2 : containsSub "import" (renderFromImport (m, n)) = true := by
    unfold containsSub
    rw [hdata2]
    exact containsSubList_mid "import".data _ _
  simp [importLineMatch, h1, h2]

/-- A rendered from-import line is not the empty string. -/
theorem render_ne_empty (m n : String) : (renderFromImport (m, n) == "") = false := rfl

/-- The removal pass keeps only the trailing code line. -/
theorem removeImportLinesAux_renders (ms : List (String × String)) :
    ∀ (sk : Bool), removeImportLinesAux sk (ms.map renderFromImport ++ ["x = 1"])
      = ["x = 1"] := by
  induction ms with
  | nil =>
    intro sk
    cases sk <;> rfl
  | cons p ps ih =>
    intro sk
    obtain ⟨m, n⟩ := p
    simp only [List.map_cons, List.cons_append, removeImportLinesAux,
      render_ne_empty, Bool.and_false, Bool.false_eq_true, if_false,
      importLineMatch_render, if_true]
    exact ih true

/-! # Claim theorems -/

/-- C1 (counterexample).  Heavy level, 25 one-line files: the file count
exceeds 20 and the aggressive tier is on, `f16.txt` is dropped (it is not
a key of the returned map), yet the synthetic summary entry of the
*returned* compressed map does not mention `f16.txt` at all — so the
returned synthetic entry does not enumerate every dropped path as the
claim states. -/
theorem c1_claim_counterexample :
    heavyConfig.extremelyAggressive = true ∧ input25.length = 25 ∧
    (compressRepository heavyConfig input25).map
        (fun r => (r.compressed.map Prod.fst).contains "f16.txt") = some false ∧
    (compressRepository heavyConfig input25).map
        (fun r => (alookup "_SKIPPED_FILES_SUMMARY.txt" r.compressed).map
          (fun c => containsSub "f16.txt" c)) = some (some false) := by decide

/-- C1 (amended).  With 25 files at the heavy level the returned map holds
exactly the top 15 original paths plus the one synthetic summary entry;
the synthetic entry is created enumerating every dropped path, but it is
itself compressed, so in the returned map it states the dropped-file count
while the individual path lines are collapsed behind a comment-elision
marker. -/
theorem c1_amended :
    (compressRepository heavyConfig input25).map (fun r => r.compressed.map Prod.fst)
      = some ((List.range 15).map (fun i => "f" ++ toString (i + 1) ++ ".txt")
          ++ ["_SKIPPED_FILES_SUMMARY.txt"]) ∧
    (compressRepository heavyConfig input25).map
        (fun r => alookup "_SKIPPED_FILES_SUMMARY.txt" r.compressed)
      = some (some ("# Note: This file has been compressed for LLM analysis\n# Original file: _SKIPPED_FILES_SUMMARY.txt\n\n# Skipped 10 less important files in heavy compression mode\n\n# Files skipped:\n# ... 10 more comment lines ...")) := by decide

/-- C2 (counterexample).  Three files share the identical ten-line,
149-character, comment-free chunk `chunkWs` and the duplicate threshold is
3, yet `e2.log` — whose fifteen lines make it long enough to be compacted,
which strips the trailing space inside its copy of the chunk — ends up
*without* the duplicate marker: the substitution is silently skipped, so
the claim's "replaces it in each of the other two files" fails. -/
theorem c2_claim_counterexample :
    (pySplitlines chunkWs).length = 10 ∧ 50 < chunkWs.data.length ∧
    (pySplitlines chunkWs).all (fun l => ¬ isCommentLine l) = true ∧
    initConfig.duplicateThreshold = 3 ∧
    alookup chunkWs (findDuplicateCode inputE)
      = some { content := chunkWs, files := ["e1.log", "e2.log", "e3.log"] } ∧
    (compressRepository initConfig inputE).map
        (fun r => (alookup "e2.log" r.compressed).map
          (fun c => containsSub "# DUPLICATE CODE" c)) = some (some false) := by decide

/-- C2 (amended).  When per-file compaction leaves every copy of the
shared chunk intact (here: three files below `minLinesForCompression`),
the first file keeps the chunk verbatim and each of the other two is
rewritten to the literal marker citing the first path and the ten-line
count — substitution in a file whose compacted content no longer contains
the chunk verbatim is silently skipped. -/
theorem c2_amended :
    (pySplitlines chunkA).length = 10 ∧ 50 < chunkA.data.length ∧
    initConfig.duplicateThreshold = 3 ∧
    compressRepository initConfig inputC2
      = some { finalInput := inputC2,
               compressed := [("d1.log", chunkA),
                 ("d2.log", "# DUPLICATE CODE: Same as in d1.log\n# 10 lines\n"),
                 ("d3.log", "# DUPLICATE CODE: Same as in d1.log\n# 10 lines\n")] } := by decide

/-- C3 (counterexample).  Six top-level from-imports exceed the threshold
5; the summary line the code produces lists the *imported names*
(`Counter, dumps, getLogger, join, md5, sub`), not the sorted distinct
top-level module names (`collections, hashlib, json, logging, os, re`)
the claim demands. -/
theorem c3_claim_counterexample :
    initConfig.importSummaryThreshold = 5 ∧
    (collectImports (pySplitlines pyInput)).length = 6 ∧
    compressPython initConfig pyInput
      = some "# Imports summary: Counter, dumps, getLogger, join, md5, sub\n\nx = 1" ∧
    sortedSet ["collections", "os", "re", "json", "hashlib", "logging"]
      = ["collections", "hashlib", "json", "logging", "os", "re"] ∧
    ¬ ("# Imports summary: Counter, dumps, getLogger, join, md5, sub\n\nx = 1"
        = "# Imports summary: collections, hashlib, json, logging, os, re\n\nx = 1") := by decide

/-- C3 (amended).  The summary line lists, sorted and distinct, the first
dotted component of each *imported name*: for `import M` that is the
top-level module of `M`, but for `from M import N` it is `N` itself, not
the module.  All column-0 import lines are removed and the summary is the
first line of the output.  Universally: for any file made of from-import
lines followed by `x = 1`, once the import count exceeds the threshold
the output is exactly the summary over the imported names `N` (their
first dotted components, sorted, distinct) followed by a blank line and
the remaining code.  Concretely, `from`-heavy `pyInput` summarizes to the
imported symbols and mixed `pyInput2` keeps `os` (from `import os.path`)
next to symbols like `Counter`. -/
theorem c3_amended :
    (∀ (cfg : Config) (content : String) (ms : List (String × String)),
      pySplitlines content = ms.map renderFromImport ++ ["x = 1"] →
      (∀ p ∈ ms, cleanName p.1 = true ∧ cleanName p.2 = true) →
      cfg.importSummaryThreshold < ms.length →
      pythonImportStep cfg content
        = "# Imports summary: " ++ String.intercalate ", "
            (sortedSet (ms.map (fun p => moduleLabel (ImportEntry.impFrom p.1 p.2))))
          ++ "\n\n" ++ "x = 1") ∧
    compressPython initConfig pyInput
      = some "# Imports summary: Counter, dumps, getLogger, join, md5, sub\n\nx = 1" ∧
    compressPython initConfig pyInput2
      = some "# Imports summary: Counter, dumps, md5, os, sub, sys\n\ny = 2" := by
  refine ⟨?_, by decide, by decide⟩
  intro cfg content ms hs hclean hcount
  have hImports : collectImports (pySplitlines content)
      = ms.map (fun p => ImportEntry.impFrom p.1 p.2) := by
    rw [hs]; exact collectImports_shape ms hclean
  have hRemove : removeImportLines (pySplitlines content) = ["x = 1"] := by
    rw [hs]; exact removeImportLinesAux_renders ms false
  have hl : pyLstrip (joinLines ["x = 1"]) = "x = 1" := by decide
  simp only [pythonImportStep, hImports, hRemove, hl]
  have hgt : (ms.map (fun p => ImportEntry.impFrom p.1 p.2)).length
      > cfg.importSummaryThreshold := by
    rw [List.length_map]; exact hcount
  rw [if_pos hgt, List.map_map]
  rfl

/-- C3 (amended, witness).  Instantiating the universal conjunct at
`pyInput` and its six module/name pairs. -/
theorem c3_amended_witness :
    pySplitlines pyInput = c3pairs.map renderFromImport ++ ["x = 1"] ∧
    (∀ p ∈ c3pairs, cleanName p.1 = true ∧ cleanName p.2 = true) ∧
    initConfig.importSummaryThreshold < c3pairs.length ∧
    pythonImportStep initConfig pyInput
      = "# Imports summary: " ++ String.intercalate ", "
          (sortedSet (c3pairs.map (fun p => moduleLabel (ImportEntry.impFrom p.1 p.2))))
        ++ "\n\n" ++ "x = 1" :=
  ⟨by decide, by decide, by decide,
   c3_amended.1 initConfig pyInput c3pairs (by decide) (by decide) (by decide)⟩

/-- C4 (counterexample).  A 501-line file at the constructor defaults
(`maxLinesToKeep = 500`): the code keeps the first 166 and the last 167
lines — thirds of `maxLinesToKeep`, not of the file's 501 lines, a third
of which is 167 — with marker 168, whereas the claim describes 167 lines
kept on each side with marker 167. -/
theorem c4_claim_counterexample :
    initConfig.maxLinesToKeep = 500 ∧ (pySplitlines c4content).length = 501 ∧
    compressFileContent initConfig "data.log" c4content
      = some (joinLines (List.replicate 166 "a") ++ "\n# ... 168 more lines ...\n"
          ++ joinLines (List.replicate 167 "a")) ∧
    (501 : Nat) / 3 = 167 ∧
    ¬ (joinLines (List.replicate 166 "a") ++ "\n# ... 168 more lines ...\n"
          ++ joinLines (List.replicate 167 "a")
        = joinLines (List.replicate 167 "a") ++ "\n# ... 167 more lines ...\n"
          ++ joinLines (List.replicate 167 "a")) := by decide

/-- C4 (amended).  For a file longer than `maxLinesToKeep` the truncation
keeps the first `maxLinesToKeep // 3` and the last `⌈maxLinesToKeep/3⌉`
lines (thirds of the cap, not of the file) around a marker counting
`lineCount - (2*maxLinesToKeep) // 3`; that marker equals the true number
of elided lines exactly when `maxLinesToKeep % 3 ≠ 1` — exact at the
default 500 and the heavy/medium caps, but one too many at the light
tier's cap of 1000. -/
theorem c4_amended (cfg : Config) (content : String) (n : Nat)
    (hn : n = (pySplitlines content).length) (h : cfg.maxLinesToKeep < n) :
    truncateOverLong cfg content n
      = joinLines ((pySplitlines content).take (cfg.maxLinesToKeep / 3))
        ++ "\n# ... " ++ toString (n - 2 * cfg.maxLinesToKeep / 3) ++ " more lines ...\n"
        ++ joinLines (takeLast ((cfg.maxLinesToKeep + 2) / 3) (pySplitlines content))
    ∧ (n - 2 * cfg.maxLinesToKeep / 3
        = n - cfg.maxLinesToKeep / 3 - (cfg.maxLinesToKeep + 2) / 3
        ↔ cfg.maxLinesToKeep % 3 ≠ 1) := by
  refine ⟨rfl, ?_⟩
  omega

/-- C4 (witness for the amended theorem, at the 501-line input and the
default configuration). -/
theorem c4_amended_witness :
    truncateOverLong initConfig c4content 501
      = joinLines ((pySplitlines c4content).take (initConfig.maxLinesToKeep / 3))
        ++ "\n# ... " ++ toString (501 - 2 * initConfig.maxLinesToKeep / 3) ++ " more lines ...\n"
        ++ joinLines (takeLast ((initConfig.maxLinesToKeep + 2) / 3) (pySplitlines c4content))
    ∧ (501 - 2 * initConfig.maxLinesToKeep / 3
        = 501 - initConfig.maxLinesToKeep / 3 - (initConfig.maxLinesToKeep + 2) / 3
        ↔ initConfig.maxLinesToKeep % 3 ≠ 1) :=
  c4_amended initConfig c4content 501 (by decide) (by decide)

/-- C5 (counterexample).  `data.txt` is referenced by exactly five other
files of the snapshot, yet its score is the default 5: the code's rule
fires only for counts strictly above 5, while the claim's reading of the
rule (`≥ 5`) predicts 7. -/
theorem c5_claim_counterexample :
    importsCount snapshot5 "data.txt" = 5 ∧
    analyzeFileImportance "data.txt" (importsCount snapshot5 "data.txt") = 5 ∧
    importanceClaimOrder "data.txt" (importsCount snapshot5 "data.txt") = 7 ∧
    (5 : Nat) ≠ 7 := by decide

/-- C5 (amended).  The scorer is exactly the claim's ordered, first-match
rule chain — entry-point name 10, core extension 8, config suffix 7,
cross-reference 7, test marker 3, default 5 — except that the
cross-reference rule requires strictly more than 5 referencing files. -/
theorem c5_amended (filePath : String) (importCount : Nat) :
    analyzeFileImportance filePath importCount = importanceSpecOrder filePath importCount := by
  unfold analyzeFileImportance importanceSpecOrder importanceRules
  simp only [firstMatchScore]
  by_cases h : importCount > 5 <;> simp [h]

/-- C5 (witness for the amended theorem). -/
theorem c5_amended_witness :
    analyzeFileImportance "data.txt" 6 = importanceSpecOrder "data.txt" 6 :=
  c5_amended "data.txt" 6

/-- C6 (counterexample).  In the aggressive tier a 15-element array still
takes the `> 10` branch and is sampled with its first *three* elements,
not the single element the claim's lowered-threshold rule predicts. -/
theorem c6_claim_counterexample :
    heavyConfig.extremelyAggressive = true ∧ jsonList15.length = 15 ∧
    compressJson heavyConfig (some (Json.jarr jsonList15)) "[raw]"
      = "// JSON array with 15 items. First 3 items:\n[\n  0,\n  1,\n  2\n]" ∧
    ¬ ("// JSON array with 15 items. First 3 items:\n[\n  0,\n  1,\n  2\n]"
        = "// JSON array with 15 items. First item:\n0") := by decide

/-- C6 (amended).  Arrays with more than 10 elements are always replaced
by the count note plus a pretty-printed sample of the first 3 elements,
in every tier; the aggressive tier's first-element sampling applies only
to arrays of 4 to 10 elements. -/
theorem c6_amended (cfg : Config) (l : List Json) (content : String) :
    (10 < l.length →
      compressJson cfg (some (Json.jarr l)) content
        = "// JSON array with " ++ toString l.length ++ " items. First 3 items:\n"
          ++ pyDumps (Json.jarr (l.take 3))) ∧
    (cfg.extremelyAggressive = true → 3 < l.length → l.length ≤ 10 →
      compressJson cfg (some (Json.jarr l)) content
        = "// JSON array with " ++ toString l.length ++ " items. First item:\n"
          ++ pyDumps (l.headD Json.jnull)) := by
  constructor
  · intro h
    simp [compressJson, h]
  · intro ha h3 h10
    simp [compressJson, ha, h3, Nat.not_lt.mpr h10]

/-- C6 (witness for the amended theorem: a 15-element and a 5-element
array at the heavy level). -/
theorem c6_amended_witness :
    compressJson heavyConfig (some (Json.jarr jsonList15)) "raw"
      = "// JSON array with " ++ toString jsonList15.length ++ " items. First 3 items:\n"
        ++ pyDumps (Json.jarr (jsonList15.take 3)) ∧
    compressJson heavyConfig (some (Json.jarr jsonList5)) "raw"
      = "// JSON array with " ++ toString jsonList5.length ++ " items. First item:\n"
        ++ pyDumps (jsonList5.headD Json.jnull) :=
  ⟨(c6_amended heavyConfig jsonList15 "raw").1 (by decide),
   (c6_amended heavyConfig jsonList5 "raw").2 rfl (by decide) (by decide)⟩

/-- C7 (counterexample).  A single file containing the same 149-character
chunk twice: the chunk is recorded as a duplicate with owning list
`[solo.log, solo.log]`, although only *one* distinct file owns it — the
claim's "only when its hash recurs across at least 2 distinct files" is
false (the detector counts occurrences, not distinct files). -/
theorem c7_claim_counterexample :
    findDuplicateCode inputSolo
      = [(chunkA, { content := chunkA, files := ["solo.log", "solo.log"] })] ∧
    dedupKeep ["solo.log", "solo.log"] = ["solo.log"] := by decide

/-- C8 (counterexample).  Aggressive tier, a run of exactly four comment
lines: the code keeps the run's last line (`# d`) after the marker — the
claim's reading (first line plus marker only in the aggressive tier)
predicts an output without it, under either marker count. -/
theorem c8_claim_counterexample :
    compressSingleLineComments true "x = 1\n# a\n# b\n# c\n# d\ny = 2"
      = "x = 1\n# a\n# ... 2 more comment lines ...\n# d\ny = 2" ∧
    ¬ ("x = 1\n# a\n# ... 2 more comment lines ...\n# d\ny = 2"
        = "x = 1\n# a\n# ... 3 more comment lines ...\ny = 2") ∧
    ¬ ("x = 1\n# a\n# ... 2 more comment lines ...\n# d\ny = 2"
        = "x = 1\n# a\n# ... 2 more comment lines ...\ny = 2") := by decide

/-- C9 (counterexample).  Heavy level with 25 files: after the call the
caller's map is not the original — dropped paths were removed and the
synthetic entry inserted, so `compress_repository` does mutate its input
map. -/
theorem c9_claim_counterexample :
    heavyConfig.extremelyAggressive = true ∧ 20 < input25.length ∧
    ¬ ((compressRepository heavyConfig input25).map RepoResult.finalInput
        = some input25) := by decide

/-- C10 (counterexample).  A run of two blank lines at the very start of
the content survives `generic_compression` unchanged (the pattern needs
three newline characters), whereas the claim predicts it collapses to a
single blank line. -/
theorem c10_claim_counterexample :
    pySplitlines "\n\nA" = ["", "", "A"] ∧
    genericCompression initConfig "\n\nA" = "\n\nA" ∧
    pySplitlines "\nA" = ["", "A"] ∧
    ¬ (("\n\nA" : String) = "\nA") := by decide

/-- C8 (amended).  For a run of `k + 2` consecutive comment-only lines
between two code lines: runs of at most 3 lines pass through unchanged;
longer runs are replaced by the first line, a marker, and the last line,
except that in the aggressive tier a run of *more than 5* lines loses its
last line (so aggressive runs of 4–5 lines still keep it); the marker
counts `k + 1` further lines when the last line is dropped and `k`
otherwise. -/
theorem c8_amended (aggr : Bool) (k : Nat) :
    commentCore aggr ("x = 1" :: commentRun k ++ ["y = 2"]) []
      = "x = 1" ::
        (if 3 < k + 2 then
          (if aggr && decide (5 < k + 2) then
            ["# start", "# ... " ++ toString (k + 1) ++ " more comment lines ..."]
          else
            ["# start", "# ... " ++ toString k ++ " more comment lines ...", "# end"])
        else commentRun k) ++ ["y = 2"] := by
  have h1 : isCommentLine "x = 1" = false := by decide
  have h2 : isCommentLine "y = 2" = false := by decide
  have step1 : commentCore aggr ("x = 1" :: commentRun k ++ ["y = 2"]) []
      = "x = 1" :: commentCore aggr (commentRun k ++ ["y = 2"]) [] := by
    simp [commentCore, h1, commentFlush_nil]
  rw [step1,
    commentCore_append_comments aggr (commentRun k) ["y = 2"] [] (commentRun_all_comments k)]
  have step2 : commentCore aggr ["y = 2"] ([] ++ commentRun k)
      = commentFlush aggr (commentRun k) ++ ["y = 2"] := by
    simp [commentCore, h2, commentFlush_nil]
  rw [step2]
  unfold commentFlush
  rw [commentRun_length, commentRun_getLastD]
  have e1 : k + 2 - 1 = k + 1 := by omega
  have e2 : k + 2 - 2 = k := by omega
  rw [e1, e2]
  rfl

/-- C9 (amended).  `compress_repository` leaves the caller's map untouched
whenever the heavy-tier capping condition (aggressive tier and more than
20 files) does not hold; when it does hold — here heavy level and 25 files
— the input map ends up holding exactly the 15 retained entries followed
by the synthetic summary entry. -/
theorem c9_amended :
    (∀ (cfg : Config) (allContent : List (String × String)),
      (cfg.extremelyAggressive && decide (allContent.length > 20)) = false →
      (compressRepository cfg allContent).map RepoResult.finalInput
        = (compressRepository cfg allContent).map (fun _ => allContent)) ∧
    (compressRepository heavyConfig input25).map RepoResult.finalInput
      = some (input25.take 15 ++ [("_SKIPPED_FILES_SUMMARY.txt", synText25)]) := by
  constructor
  · intro cfg allContent h
    unfold compressRepository
    simp only [h, Bool.false_eq_true, if_false]
    cases allContent.foldl
      (repoFileStep cfg (allContent.map
        (fun pc => (pc.1, analyzeFileImportance pc.1 (importsCount allContent pc.1)))))
      (some []) <;> simp
  · decide

/-- C9 (witness for the amended theorem's universal part, at a
non-aggressive configuration). -/
theorem c9_amended_witness :
    (compressRepository initConfig [("a.log", "x")]).map RepoResult.finalInput
      = (compressRepository initConfig [("a.log", "x")]).map (fun _ => [("a.log", "x")]) :=
  c9_amended.1 initConfig [("a.log", "x")] (by decide)

/-! # Lemmas for the blank-line claim (C10) -/

/-- The docstring scanner is the identity on quote-free text. -/
theorem docScanAux_no_quotes (aggr : Bool) :
    ∀ (fuel : Nat) (cs : List Char), (∀ c ∈ cs, ¬ (c = sq ∨ c = dq)) →
      docScanAux aggr fuel cs = cs := by
  intro fuel
  induction fuel with
  | zero => intro cs _; rfl
  | succ f ih =>
    intro cs h
    cases cs with
    | nil => rfl
    | cons c rest =>
      have hc : ¬ (c = sq ∨ c = dq) := h c (by simp)
      have hb : (c == sq || c == dq) = false := by
        simp only [Bool.or_eq_false_iff, beq_eq_false_iff_ne]
        exact ⟨fun h1 => hc (Or.inl h1), fun h2 => hc (Or.inr h2)⟩
      simp [docScanAux, hb, ih rest (fun x hx => h x (by simp [hx]))]

/-- `compress_multiline_comments` is the identity on quote-free content. -/
theorem compressMultiline_no_quotes (aggr : Bool) (s : String)
    (h : ∀ c ∈ s.data, ¬ (c = sq ∨ c = dq)) :
    compressMultilineComments aggr s = s := by
  unfold compressMultilineComments
  rw [docScanAux_no_quotes aggr _ _ h]

/-- Splitting after a leading newline run. -/
theorem linesOf_replicate_nl (n : Nat) (cs : List Char) :
    linesOf (List.replicate n '\n' ++ cs) = List.replicate n [] ++ linesOf cs := by
  induction n with
  | zero => simp
  | succ m ih => simp [List.replicate_succ, linesOf, ih]

/-- Splitting a non-newline cons when the tail's split is known. -/
theorem linesOf_cons_ne (c : Char) (rest : List Char) (h : ¬ c = '\n')
    {l : List Char} {ls : List (List Char)} (hrest : linesOf rest = l :: ls) :
    linesOf (c :: rest) = (c :: l) :: ls := by
  conv_lhs => rw [linesOf]
  rw [if_neg h, hrest]

/-- The line view of `"A" ++ newlines (k+1) ++ "B"`. -/
theorem splitlines_content1 (k : Nat) :
    pySplitlines (String.mk ('A' :: (List.replicate (k + 1) '\n' ++ ['B'])))
      = "A" :: (List.replicate k "" ++ ["B"]) := by
  have hlast : ('A' :: (List.replicate (k + 1) '\n' ++ ['B'])).getLast? = some 'B' := by
    rw [show ('A' :: (List.replicate (k + 1) '\n' ++ ['B']))
        = ('A' :: List.replicate (k + 1) '\n') ++ ['B'] from by simp, List.getLast?_concat]
  have h1 : linesOf (List.replicate (k + 1) '\n' ++ ['B'])
      = [] :: (List.replicate k [] ++ [['B']]) := by
    rw [linesOf_replicate_nl (k + 1) ['B']]
    simp [List.replicate_succ, linesOf]
  have hlines : linesOf ('A' :: (List.replicate (k + 1) '\n' ++ ['B']))
      = ['A'] :: (List.replicate k [] ++ [['B']]) :=
    linesOf_cons_ne 'A' _ (by decide) h1
  unfold pySplitlines
  simp only [mk_data, hlines, hlast]
  rw [if_neg (show ¬ (('A' :: (List.replicate (k + 1) '\n' ++ ['B'])).isEmpty = true)
      from by simp)]
  rw [if_neg (show ¬ ((some 'B' : Option Char) = some '\n') from by decide)]
  rw [List.map_cons, List.map_append, List.map_replicate]
  rfl

/-- The line view of `newlines j ++ "A"`. -/
theorem splitlines_content2 (j : Nat) :
    pySplitlines (String.mk (List.replicate j '\n' ++ ['A']))
      = List.replicate j "" ++ ["A"] := by
  have hlast : (List.replicate j '\n' ++ ['A']).getLast? = some 'A' :=
    List.getLast?_concat _
  have hlines : linesOf (List.replicate j '\n' ++ ['A'])
      = List.replicate j [] ++ [['A']] := by
    rw [linesOf_replicate_nl j ['A']]
    simp [linesOf]
  unfold pySplitlines
  simp only [mk_data, hlines, hlast]
  rw [if_neg (show ¬ ((List.replicate j '\n' ++ ['A']).isEmpty = true) from by simp)]
  rw [if_neg (show ¬ ((some 'A' : Option Char) = some '\n') from by decide)]
  rw [List.map_append, List.map_replicate]
  rfl

/-- The comment fold is the identity on comment-free line lists. -/
theorem commentCore_no_comments (aggr : Bool) :
    ∀ (ls : List String), (∀ l ∈ ls, isCommentLine l = false) →
      commentCore aggr ls [] = ls := by
  intro ls
  induction ls with
  | nil => intro _; rfl
  | cons l rest ih =>
    intro h
    have hl : isCommentLine l = false := h l (by simp)
    simp [commentCore, hl, commentFlush_nil, ih (fun x hx => h x (by simp [hx]))]

/-- Appending two string constructors. -/
theorem mk_append (a b : List Char) : String.mk a ++ String.mk b = String.mk (a ++ b) := rfl

/-- Joining over a nonempty tail. -/
theorem joinLines_cons (l : String) (ls : List String) (h : ls ≠ []) :
    joinLines (l :: ls) = l ++ "\n" ++ joinLines ls := by
  cases ls with
  | nil => exact absurd rfl h
  | cons x xs => rfl

/-- Joining a blank run before a final line restores the newline run. -/
theorem joinLines_blank_run (s : String) :
    ∀ (k : Nat), joinLines (List.replicate k "" ++ [s])
      = String.mk (List.replicate k '\n' ++ s.data) := by
  intro k
  induction k with
  | zero => simp [joinLines]
  | succ m ih =>
    rw [show List.replicate (m + 1) "" ++ [s] = "" :: (List.replicate m "" ++ [s]) from by
        simp [List.replicate_succ]]
    rw [joinLines_cons "" (List.replicate m "" ++ [s]) (by simp), ih]
    rw [show ("" ++ "\n" : String) = String.mk ['\n'] from rfl, mk_append]
    simp [List.replicate_succ]

/-- Joining the line view of content shape 1. -/
theorem joinLines_content1 (k : Nat) :
    joinLines ("A" :: (List.replicate k "" ++ ["B"]))
      = String.mk ('A' :: (List.replicate (k + 1) '\n' ++ ['B'])) := by
  rw [joinLines_cons "A" (List.replicate k "" ++ ["B"]) (by simp), joinLines_blank_run "B" k]
  rw [show ("A" ++ "\n" : String) = String.mk ['A', '\n'] from rfl, mk_append]
  simp [List.replicate_succ]

/-- Fuel exhaustion and the empty list. -/
theorem blankAux_nil (f : Nat) : blankAux f [] = [] := by cases f <;> rfl

/-- A non-newline character is copied through the blank-line scanner. -/
theorem blankAux_solid (f : Nat) (c : Char) (cs : List Char) (h : ¬ c = '\n') :
    blankAux (f + 1) (c :: cs) = c :: blankAux f cs := by
  have hb : (c == '\n') = false := by simp [h]
  simp [blankAux, hb]

/-- The maximal whitespace run at the head of a newline run followed by a
non-whitespace character. -/
theorem takeWhile_nlrun (m : Nat) (c : Char) (cs : List Char) (h : pyWs c = false) :
    (List.replicate m '\n' ++ c :: cs).takeWhile (pyWs ·) = List.replicate m '\n' := by
  induction m with
  | zero => simp [List.takeWhile_cons, h]
  | succ m ih =>
    simp only [List.replicate_succ, List.cons_append, List.takeWhile_cons]
    simp [ih, show pyWs '\n' = true from by decide]

/-- Newline count of a pure newline run. -/
theorem countNl_replicate (m : Nat) : countNl (List.replicate m '\n') = m := by
  induction m with
  | zero => rfl
  | succ m ih =>
    simp only [countNl, List.replicate_succ, List.countP_cons] at *
    simp [ih]

/-- A pure newline run is its own prefix up to the last newline. -/
theorem upToLastNl_replicate (m : Nat) (h : 1 ≤ m) :
    upToLastNl (List.replicate m '\n') = List.replicate m '\n' := by
  unfold upToLastNl
  cases m with
  | zero => omega
  | succ m =>
    rw [List.reverse_replicate]
    have hdw : List.dropWhile (fun c => ¬ c == '\n') (List.replicate (m + 1) '\n')
        = List.replicate (m + 1) '\n' := by
      rw [List.replicate_succ, List.dropWhile_cons]
      simp
    rw [hdw, List.reverse_replicate]

/-- A newline run of length at least three followed by solid text is
collapsed to two newlines by the blank-line scanner. -/
theorem blankAux_bigrun (f n : Nat) (hn : 2 ≤ n) (c2 : Char) (cs2 : List Char)
    (hc : pyWs c2 = false) :
    blankAux (f + 1) (List.replicate (n + 1) '\n' ++ c2 :: cs2)
      = '\n' :: '\n' :: blankAux f (c2 :: cs2) := by
  have hsh : List.replicate (n + 1) '\n' ++ c2 :: cs2
      = '\n' :: (List.replicate n '\n' ++ c2 :: cs2) := by
    simp [List.replicate_succ]
  have hrun : ('\n' :: (List.replicate n '\n' ++ c2 :: cs2)).takeWhile (pyWs ·)
      = List.replicate (n + 1) '\n' := by
    rw [← hsh]; exact takeWhile_nlrun (n + 1) c2 cs2 hc
  have hdrop : ('\n' :: (List.replicate n '\n' ++ c2 :: cs2)).drop (n + 1) = c2 :: cs2 := by
    rw [← hsh]
    have hd := List.drop_left (List.replicate (n + 1) '\n') (c2 :: cs2)
    rwa [List.length_replicate] at hd
  rw [hsh]
  simp only [blankAux, beq_self_eq_true, if_true, hrun, countNl_replicate,
    upToLastNl_replicate (n + 1) (by omega), List.length_replicate,
    if_pos (show 3 ≤ n + 1 from by omega), hdrop]

/-- The trailing-whitespace pass is the identity on text without spaces
or tabs. -/
theorem stripTrailAux_clean :
    ∀ (f : Nat) (cs : List Char), (∀ c ∈ cs, spaceTab c = false) →
      stripTrailAux f cs = cs := by
  intro f
  induction f with
  | zero => intro cs _; rfl
  | succ f ih =>
    intro cs h
    cases cs with
    | nil => rfl
    | cons c rest =>
      have hc : spaceTab c = false := h c (by simp)
      simp [stripTrailAux, hc, ih rest (fun x hx => h x (by simp [hx]))]

/-- C10 (amended).  Interior blank runs: for every `k ≥ 1`, a run of `k`
blank lines between two non-blank lines (`k + 1` newline characters)
leaves `generic_compression` as exactly one blank line — so interior runs
of two or more blank lines do collapse to one, and a single interior
blank line is unchanged.  Leading runs: a run of `j ≥ 3` blank lines at
the very start of the content collapses to *two* blank lines, not one
(and, per the counterexample, a leading run of two blank lines does not
collapse at all): the regex needs three newline characters, one of which
is the preceding line's terminator. -/
theorem c10_amended :
    (∀ k, 1 ≤ k →
      genericCompression initConfig
          (String.mk ('A' :: (List.replicate (k + 1) '\n' ++ ['B'])))
        = "A\n\nB") ∧
    (∀ j, 3 ≤ j →
      genericCompression initConfig (String.mk (List.replicate j '\n' ++ ['A']))
        = "\n\nA") := by
  constructor
  · intro k hk
    rcases eq_or_lt_of_le hk with h1 | h1
    · rw [← h1]; decide
    · obtain ⟨m, rfl⟩ : ∃ m, k = m + 2 := ⟨k - 2, by omega⟩
      have hq : ∀ c ∈ ('A' :: (List.replicate (m + 2 + 1) '\n' ++ ['B'])),
          ¬ (c = sq ∨ c = dq) := by
        intro c hc
        rcases List.mem_cons.mp hc with h | hc2
        · subst h; decide
        rcases List.mem_append.mp hc2 with h | h
        · rw [List.eq_of_mem_replicate h]; decide
        · rw [List.mem_singleton.mp h]; decide
      have hml := compressMultiline_no_quotes false
        (String.mk ('A' :: (List.replicate (m + 2 + 1) '\n' ++ ['B']))) hq
      have hnc : ∀ l ∈ ("A" :: (List.replicate (m + 2) "" ++ ["B"])),
          isCommentLine l = false := by
        intro l hl
        rcases List.mem_cons.mp hl with h | hl2
        · subst h; decide
        rcases List.mem_append.mp hl2 with h | h
        · rw [List.eq_of_mem_replicate h]; decide
        · rw [List.mem_singleton.mp h]; decide
      have hslc : compressSingleLineComments false
          (String.mk ('A' :: (List.replicate (m + 2 + 1) '\n' ++ ['B'])))
          = String.mk ('A' :: (List.replicate (m + 2 + 1) '\n' ++ ['B'])) := by
        unfold compressSingleLineComments
        rw [splitlines_content1 (m + 2),
          commentCore_no_comments false ("A" :: (List.replicate (m + 2) "" ++ ["B"])) hnc,
          joinLines_content1 (m + 2)]
      have hbc : blankCollapse (String.mk ('A' :: (List.replicate (m + 2 + 1) '\n' ++ ['B'])))
          = "A\n\nB" := by
        unfold blankCollapse
        rw [mk_data]
        have hlen : ('A' :: (List.replicate (m + 2 + 1) '\n' ++ ['B'])).length
            = ((m + 3) + 1) + 1 := by simp
        rw [hlen]
        rw [blankAux_solid ((m + 3) + 1) 'A' _ (by decide)]
        rw [blankAux_bigrun (m + 3) (m + 2) (by omega) 'B' [] (by decide)]
        rw [show m + 3 = (m + 2) + 1 from by omega]
        rw [blankAux_solid (m + 2) 'B' [] (by decide), blankAux_nil]
      have hst : stripTrailingWs ("A\n\nB" : String) = "A\n\nB" := by decide
      calc genericCompression initConfig
              (String.mk ('A' :: (List.replicate (m + 2 + 1) '\n' ++ ['B'])))
          = stripTrailingWs (blankCollapse (compressSingleLineComments false
              (compressMultilineComments false
                (String.mk ('A' :: (List.replicate (m + 2 + 1) '\n' ++ ['B'])))))) := rfl
        _ = "A\n\nB" := by rw [hml, hslc, hbc, hst]
  · intro j hj
    obtain ⟨m, rfl⟩ : ∃ m, j = (m + 2) + 1 := ⟨j - 3, by omega⟩
    have hq : ∀ c ∈ (List.replicate (m + 2 + 1) '\n' ++ ['A']), ¬ (c = sq ∨ c = dq) := by
      intro c hc
      rcases List.mem_append.mp hc with h | h
      · rw [List.eq_of_mem_replicate h]; decide
      · rw [List.mem_singleton.mp h]; decide
    have hml := compressMultiline_no_quotes false
      (String.mk (List.replicate (m + 2 + 1) '\n' ++ ['A'])) hq
    have hnc : ∀ l ∈ (List.replicate (m + 2 + 1) "" ++ ["A"]), isCommentLine l = false := by
      intro l hl
      rcases List.mem_append.mp hl with h | h
      · rw [List.eq_of_mem_replicate h]; decide
      · rw [List.mem_singleton.mp h]; decide
    have hslc : compressSingleLineComments false
        (String.mk (List.replicate (m + 2 + 1) '\n' ++ ['A']))
        = String.mk (List.replicate (m + 2 + 1) '\n' ++ ['A']) := by
      unfold compressSingleLineComments
      rw [splitlines_content2 (m + 2 + 1),
        commentCore_no_comments false (List.replicate (m + 2 + 1) "" ++ ["A"]) hnc,
        joinLines_blank_run "A" (m + 2 + 1)]
    have hbc : blankCollapse (String.mk (List.replicate (m + 2 + 1) '\n' ++ ['A']))
        = "\n\nA" := by
      unfold blankCollapse
      rw [mk_data]
      have hlen : (List.replicate (m + 2 + 1) '\n' ++ ['A']).length = (m + 3) + 1 := by
        simp
      rw [hlen]
      rw [blankAux_bigrun (m + 3) (m + 2) (by omega) 'A' [] (by decide)]
      rw [show m + 3 = (m + 2) + 1 from by omega]
      rw [blankAux_solid (m + 2) 'A' [] (by decide), blankAux_nil]
    have hst : stripTrailingWs ("\n\nA" : String) = "\n\nA" := by decide
    calc genericCompression initConfig (String.mk (List.replicate (m + 2 + 1) '\n' ++ ['A']))
        = stripTrailingWs (blankCollapse (compressSingleLineComments false
            (compressMultilineComments false
              (String.mk (List.replicate (m + 2 + 1) '\n' ++ ['A']))))) := rfl
      _ = "\n\nA" := by rw [hml, hslc, hbc, hst]

/-- C10 (witness for the amended theorem: two interior blank lines
collapse to one, three leading blank lines collapse to two). -/
theorem c10_amended_witness :
    genericCompression initConfig
        (String.mk ('A' :: (List.replicate (2 + 1) '\n' ++ ['B']))) = "A\n\nB" ∧
    genericCompression initConfig (String.mk (List.replicate 3 '\n' ++ ['A'])) = "\n\nA" :=
  ⟨c10_amended.1 2 (by decide), c10_amended.2 3 (by decide)⟩

/-! # Lemmas for the duplicate-detector claim (C7) -/

/-- Lookup distributes over appending association lists. -/
theorem alookup_append (k : String) (l1 l2 : List (String × α)) :
    alookup k (l1 ++ l2)
      = match alookup k l1 with
        | some v => some v
        | none => alookup k l2 := by
  induction l1 with
  | nil => simp [alookup]
  | cons p rest ih =>
    obtain ⟨k2, v⟩ := p
    by_cases h : k = k2 <;> simp [alookup, h, ih]

/-- Updating a present key makes lookup return the new value. -/
theorem alookup_aupdate_self (k : String) (v : α) (l : List (String × α)) (w : α)
    (h : alookup k l = some w) : alookup k (aupdate k v l) = some v := by
  induction l with
  | nil => simp [alookup] at h
  | cons p rest ih =>
    obtain ⟨k2, v2⟩ := p
    by_cases hk : k = k2
    · simp [alookup, aupdate, hk]
    · simp [alookup, aupdate, hk] at h ⊢
      exact ih h

/-- Updating one key leaves the lookup of any other key unchanged. -/
theorem alookup_aupdate_ne (k k2 : String) (v : α) (l : List (String × α))
    (h : ¬ k2 = k) : alookup k2 (aupdate k v l) = alookup k2 l := by
  induction l with
  | nil => simp [aupdate]
  | cons p rest ih =>
    obtain ⟨k3, v3⟩ := p
    by_cases hk : k = k3
    · subst hk
      simp [alookup, aupdate, h]
    · by_cases h2 : k2 = k3 <;> simp [alookup, aupdate, hk, h2, ih]

/-- Occurrence lists split over appended chunk streams. -/
theorem occList_append (t : String) (a b : List (String × String)) :
    occList t (a ++ b) = occList t a ++ occList t b := by
  simp [occList, List.filter_append]

/-- Occurrence list of a one-chunk stream. -/
theorem occList_singleton (t : String) (c : String × String) :
    occList t [c] = if c.2 = t then [c.1] else [] := by
  by_cases h : c.2 = t
  · simp [occList, List.filter, h]
  · have hb : (c.2 == t) = false := by simp [h]
    simp [occList, List.filter, h, hb]

/-- The invariant holds at the start of the hashing loop. -/
theorem dupInv_nil : dupInv [] ([], []) := by
  constructor <;> intro t <;> simp [alookup, occList]

/-- One step of the hashing loop preserves the invariant. -/
theorem dupInv_step (pre : List (String × String))
    (st : List (String × String) × List (String × DupInfo)) (c : String × String)
    (h : dupInv pre st) : dupInv (pre ++ [c]) (dupStep st c) := by
  obtain ⟨h1, h2⟩ := h
  obtain ⟨hashes, dups⟩ := st
  obtain ⟨p, t0⟩ := c
  have hocc : ∀ t, occList t (pre ++ [(p, t0)])
      = occList t pre ++ (if t0 = t then [p] else []) := by
    intro t
    rw [occList_append, occList_singleton]
  cases hh : alookup t0 hashes with
  | none =>
    have hocc0 : occList t0 pre = [] := by
      have := h1 t0
      rw [hh] at this
      exact List.head?_eq_none_iff.mp this.symm
    have hstep : dupStep (hashes, dups) (p, t0) = (hashes ++ [(t0, p)], dups) := by
      simp [dupStep, hh]
    rw [hstep]
    constructor
    · intro t
      rw [alookup_append, hocc t, h1 t]
      by_cases ht : t0 = t
      · subst ht
        rw [hocc0]
        simp [alookup]
      · cases hcase : (occList t pre).head? <;> simp [alookup, ht, Ne.symm ht, hcase]
    · intro t
      rw [hocc t, h2 t]
      by_cases ht : t0 = t
      · subst ht
        rw [hocc0]
        simp
      · simp [ht]
  | some first =>
    have hocc0 : (occList t0 pre).head? = some first := by
      rw [← h1 t0, hh]
    cases hd : alookup t0 dups with
    | none =>
      have hlen : ¬ 2 ≤ (occList t0 pre).length := by
        intro hle
        have := h2 t0
        rw [hd, if_pos hle] at this
        exact Option.noConfusion this
      have hocc1 : occList t0 pre = [first] := by
        cases hc : occList t0 pre with
        | nil => rw [hc] at hocc0; exact Option.noConfusion hocc0
        | cons x xs =>
          rw [hc] at hocc0
          have hx : x = first := by injection hocc0
          cases hxs : xs with
          | nil => rw [hx]
          | cons y ys =>
            exfalso
            apply hlen
            rw [hc, hxs]
            simp
      have hstep : dupStep (hashes, dups) (p, t0)
          = (hashes, dups ++ [(t0, { content := t0, files := [first, p] })]) := by
        simp [dupStep, hh, hd]
      rw [hstep]
      constructor
      · intro t
        rw [hocc t, h1 t]
        by_cases ht : t0 = t
        · subst ht
          rw [hocc1]
          simp
        · simp [ht]
      · intro t
        rw [alookup_append, hocc t, h2 t]
        by_cases ht : t0 = t
        · subst ht
          rw [hocc1]
          rw [if_neg (by simp), if_pos (by simp)]
          simp [alookup]
        · cases hcase : (if 2 ≤ (occList t pre).length
              then some ({ content := t, files := occList t pre } : DupInfo) else none) <;>
            simp [alookup, ht, Ne.symm ht, hcase]
    | some info =>
      have hlen : 2 ≤ (occList t0 pre).length := by
        by_contra hle
        have := h2 t0
        rw [hd, if_neg hle] at this
        exact Option.noConfusion this
      have hinfo : info = { content := t0, files := occList t0 pre } := by
        have := h2 t0
        rw [hd, if_pos hlen] at this
        injection this
      have hstep : dupStep (hashes, dups) (p, t0)
          = (hashes, aupdate t0 { info with files := info.files ++ [p] } dups) := by
        simp [dupStep, hh, hd]
      rw [hstep]
      constructor
      · intro t
        rw [hocc t, h1 t]
        by_cases ht : t0 = t
        · subst ht
          cases hc : occList t0 pre with
          | nil => rw [hc] at hocc0; exact Option.noConfusion hocc0
          | cons x xs => simp
        · simp [ht]
      · intro t
        rw [hocc t]
        by_cases ht : t0 = t
        · subst ht
          rw [alookup_aupdate_self t0 _ dups info hd, hinfo]
          rw [if_pos (by simp; omega)]
          simp
        · rw [alookup_aupdate_ne t0 t _ dups (Ne.symm ht), h2 t]
          simp [ht]

/-- The invariant is preserved along the whole chunk stream. -/
theorem dupInv_foldl (rest : List (String × String)) :
    ∀ (pre : List (String × String)) st, dupInv pre st →
      dupInv (pre ++ rest) (rest.foldl dupStep st) := by
  induction rest with
  | nil =>
    intro pre st h
    simpa using h
  | cons c rest ih =>
    intro pre st h
    rw [List.foldl_cons, show pre ++ c :: rest = (pre ++ [c]) ++ rest from by simp]
    exact ih (pre ++ [c]) (dupStep st c) (dupInv_step pre st c h)

/-- Characterization of the duplicates table: a chunk text is recorded
exactly when it occurs at least twice, and then with its full occurrence
list. -/
theorem findDuplicateCode_lookup (allContent : List (String × String)) (t : String) :
    alookup t (findDuplicateCode allContent)
      = if 2 ≤ (occList t (allChunks allContent)).length
        then some { content := t, files := occList t (allChunks allContent) }
        else none := by
  have h := dupInv_foldl (allChunks allContent) [] ([], []) dupInv_nil
  rw [List.nil_append] at h
  exact h.2 t

/-- C7 (amended).  A recorded duplicate's owning list is the full list of
chunk *occurrences* in first-seen order (the first-seen path first), so it
always has at least two entries — but these need not be distinct files
(the same file may appear twice), and conversely every text with at least
two occurrences is recorded; eligibility for substitution compares this
occurrence count, not a distinct-file count, against `duplicateThreshold`. -/
theorem c7_amended (allContent : List (String × String)) (t : String) (info : DupInfo)
    (h : alookup t (findDuplicateCode allContent) = some info) :
    (info.content = t ∧
     info.files = occList t (allChunks allContent) ∧
     2 ≤ info.files.length ∧
     info.files.head? = (occList t (allChunks allContent)).head?) ∧
    (∀ u, 2 ≤ (occList u (allChunks allContent)).length →
      (alookup u (findDuplicateCode allContent)).isSome) := by
  have hc := findDuplicateCode_lookup allContent t
  rw [h] at hc
  by_cases hlen : 2 ≤ (occList t (allChunks allContent)).length
  · rw [if_pos hlen] at hc
    have hinfo : info = { content := t, files := occList t (allChunks allContent) } := by
      injection hc
    subst hinfo
    refine ⟨⟨rfl, rfl, hlen, rfl⟩, ?_⟩
    intro u hu
    rw [findDuplicateCode_lookup allContent u, if_pos hu]
    rfl
  · rw [if_neg hlen] at hc
    exact Option.noConfusion hc

/-- C7 (witness for the amended theorem, at the three-file input sharing
`chunkA`). -/
theorem c7_amended_witness :
    ((({ content := chunkA, files := ["d1.log", "d2.log", "d3.log"] } : DupInfo).content
        = chunkA ∧
      ({ content := chunkA, files := ["d1.log", "d2.log", "d3.log"] } : DupInfo).files
        = occList chunkA (allChunks inputC2) ∧
      2 ≤ ({ content := chunkA, files := ["d1.log", "d2.log", "d3.log"] } : DupInfo).files.length ∧
      ({ content := chunkA, files := ["d1.log", "d2.log", "d3.log"] } : DupInfo).files.head?
        = (occList chunkA (allChunks inputC2)).head?) ∧
     (∀ u, 2 ≤ (occList u (allChunks inputC2)).length →
        (alookup u (findDuplicateCode inputC2)).isSome)) :=
  c7_amended inputC2 chunkA
    { content := chunkA, files := ["d1.log", "d2.log", "d3.log"] } (by decide)

end RepoCompress
